import Mathlib

/-!
Verification of the Coup game engine (rlcard/games/coup).

This file gives a shallow embedding of `coup.py`, `dealer.py`, `player.py`
and `constants.py` as executable Lean definitions, and proves properties of
the engine stated in its specification.  The Python engine is a single
synchronous state machine; exceptions are modelled by results that carry the
state as it stood when the exception was raised, and the injected RNG
(`np_random`) is modelled by an `Oracle` argument providing the shuffle and
the random choice.
-/

namespace Coup

/-- Role cards (constants.py DUKE/CAPTAIN/ASSASSIN/CONTESSA/AMBASSADOR). -/
inductive Role
  | duke | captain | assassin | contessa | ambassador
deriving DecidableEq, Repr, Fintype

/-- The Python role constants are strings; `name` is that string. -/
def Role.name : Role → String
  | .duke => "duke"
  | .captain => "captain"
  | .assassin => "assassin"
  | .contessa => "contessa"
  | .ambassador => "ambassador"

/-- constants.py ALL_ROLES: the five roles sorted by name. -/
def ALL_ROLES : List Role := [.ambassador, .assassin, .captain, .contessa, .duke]

/-- Python string less-than: lexicographic comparison by code point. -/
def strLtL : List Char → List Char → Bool
  | [], [] => false
  | [], _ :: _ => true
  | _ :: _, [] => false
  | a :: as, b :: bs =>
    if a.val < b.val then true
    else if b.val < a.val then false
    else strLtL as bs

/-- Python string comparison `a <= b` (total order, so `not (b < a)`). -/
def strLe (a b : String) : Bool := ! strLtL b.data a.data

/-- Insert `x` after every element `y` with `le y x` (the insertion step of
a stable sort). -/
def insertLe (le : α → α → Bool) (x : α) : List α → List α
  | [] => [x]
  | y :: ys => if le y x then y :: insertLe le x ys else x :: y :: ys

/-- Python `sorted(l)` under the total preorder `le`: Python's sort is
stable, and a stable sort's output is determined by the comparison, so a
stable insertion sort models it exactly. -/
def sortByLe (le : α → α → Bool) (l : List α) : List α :=
  l.foldl (fun acc x => insertLe le x acc) []

/-- Python `sorted` on a list of role-name strings. -/
def sortRoles (l : List Role) : List Role :=
  sortByLe (fun a b => strLe a.name b.name) l

/-- constants.py ACTION_COSTS (missing entries cost 0). -/
inductive ActName
  | income | foreign_aid | tax | exchange | steal | assassinate | coup
deriving DecidableEq, Repr

def ActName.cost : ActName → Nat
  | .assassinate => 3
  | .coup => 7
  | _ => 0

def ActName.str : ActName → String
  | .income => "income"
  | .foreign_aid => "foreign_aid"
  | .tax => "tax"
  | .exchange => "exchange"
  | .steal => "steal"
  | .assassinate => "assassinate"
  | .coup => "coup"

/-- Entries of a player's `trace` list: ('claim', r), ('reveal', r),
('lost_challenge', r) and ('exchange', None). -/
inductive TraceEv
  | claimEv (r : Role)
  | revealEv (r : Role)
  | lostChallengeEv (r : Role)
  | exchangeEv
deriving DecidableEq, Repr

/-- player.py CoupPlayer. -/
structure Player where
  cash : Nat := 2
  hidden : List Role := []
  revealed : List Role := []
  trace : List TraceEv := []
deriving DecidableEq, Repr

/-- The phase names a `Reveal` can carry (constants.py REVEAL_PHASES). -/
inductive RevealPhase
  | prove_challenge | correct_challenge | incorrect_challenge | direct_attack
deriving DecidableEq, Repr

/-- A stored response to a challenge poll: 'pass' or 'challenge'. -/
inductive ChalResp
  | passR | challengeR
deriving DecidableEq, Repr

/-- A stored response to a block poll: 'pass' or a blocking role. -/
inductive BlockResp
  | passB | withRole (r : Role)
deriving DecidableEq, Repr

/-- coup.py Reveal: a pending forced reveal by one player. -/
structure Reveal where
  player_id : Nat
  phase_name : RevealPhase
deriving DecidableEq, Repr

/-- coup.py Challenge (parent pointers are represented by context at use). -/
structure Challenge where
  challenged_player : Nat
  role : Role
  player_id : Nat
  responses : List (Nat × ChalResp) := []
  reveal : Option Reveal := none
  challenge_correct : Option Bool := none
deriving DecidableEq, Repr

/-- coup.py Block. -/
structure Block where
  blocking_player_id : Option Nat
  player_id : Nat
  roles : List Role
  responses : List (Nat × BlockResp) := []
  challenge : Option Challenge := none
deriving DecidableEq, Repr

/-- coup.py Action and its subclasses, flattened: the subclass is `name`,
and the optional sub-resolvers are the same attributes as in the source
(`drawn_roles` only ever used by ExchangeAction). -/
structure ActionSt where
  name : ActName
  player_id : Nat
  target_player : Option Nat := none
  challenge : Option Challenge := none
  block : Option Block := none
  final_action : Option Reveal := none
  drawn_roles : Option (List Role) := none
deriving DecidableEq, Repr

/-- coup.py Turn. -/
structure TurnSt where
  player_id : Nat
  action : Option ActionSt := none
deriving DecidableEq, Repr

/-- `Coup.state`: either a Turn in progress or GameOver. -/
inductive GState
  | turn (t : TurnSt)
  | gameOver (winning_player : Nat)
deriving DecidableEq, Repr

/-- The whole game: `Coup` object state (dealer deck inlined). -/
structure Game where
  num_players : Nat
  players : List Player
  deck : List Role
  state : GState
deriving DecidableEq, Repr

/-- Python exceptions: `IllegalAction` versus everything fatal
(RuntimeError, assertion failure, AttributeError, IndexError, KeyError). -/
inductive Err
  | illegal (msg : String)
  | runtime (msg : String)
deriving DecidableEq, Repr

/-- Result of playing an action.  An error carries the game as it stood when
the exception was raised (the Python exception propagates out of a method
that may already have mutated the game). -/
inductive PlayResult
  | ok (g : Game)
  | err (e : Err) (g : Game)
deriving DecidableEq, Repr

/-- The injected RNG (`np_random`): `shuffle` permutes a list in place,
`chooseIdx` picks an index below the given length. -/
structure Oracle where
  shuffle : List Role → List Role
  chooseIdx : Nat → Nat

/-- Player actions, as parsed from the wire strings of the source.
`otherA` stands for any string that parses to none of the recognized
forms and is therefore rejected wherever it is played. -/
inductive PAct
  | incomeA | foreignAidA | taxA | exchangeA
  | stealA (t : Nat) | assassinateA (t : Nat) | coupA (t : Nat)
  | passA | challengeA
  | blockA (r : Role)
  | revealA (r : Role)
  | keepA (rs : List Role)
  | otherA
deriving DecidableEq, Repr

/-! ## Game-level helper operations (methods of class Coup) -/

def defaultPlayer : Player := { cash := 0 }

def getPlayer (g : Game) (pid : Nat) : Player :=
  g.players.getD pid defaultPlayer

def updatePlayer (g : Game) (pid : Nat) (f : Player → Player) : Game :=
  { g with players := g.players.set pid (f (getPlayer g pid)) }

/-- Coup.is_alive: a player is alive iff he has hidden influence. -/
def isAlive (g : Game) (pid : Nat) : Bool :=
  (getPlayer g pid).hidden.length > 0

/-- Coup.is_game_over. -/
def isGameOver (g : Game) : Bool :=
  match g.state with
  | .gameOver _ => true
  | .turn _ => false

/-- Installing a mutation of the current Turn tree.  In the source the Turn
object is mutated in place; if `game.state` has meanwhile been replaced by
`GameOver` the mutated objects are orphaned, so the install is a no-op. -/
def setTurn (g : Game) (t : TurnSt) : Game :=
  match g.state with
  | .gameOver _ => g
  | .turn _ => { g with state := .turn t }

/-- Coup.player_has_role. -/
def playerHasRole (g : Game) (pid : Nat) (role : Role) : Bool :=
  (getPlayer g pid).hidden.contains role

/-- Coup.get_influence. -/
def getInfluence (g : Game) (pid : Nat) : List Role :=
  (getPlayer g pid).hidden

/-- Coup.add_cash. -/
def addCash (g : Game) (pid : Nat) (amt : Nat) : Game :=
  updatePlayer g pid (fun p => { p with cash := p.cash + amt })

/-- Coup.deduct_cash: clamps at 0 and returns the amount actually taken. -/
def deductCash (g : Game) (pid : Nat) (amt : Nat) : Game × Nat :=
  let amt := min amt (getPlayer g pid).cash
  (updatePlayer g pid (fun p => { p with cash := p.cash - amt }), amt)

/-- Coup.can_afford. -/
def canAfford (g : Game) (pid : Nat) (price : Nat) : Bool :=
  (getPlayer g pid).cash ≥ price

def traceClaim (g : Game) (pid : Nat) (role : Role) : Game :=
  updatePlayer g pid (fun p => { p with trace := p.trace ++ [.claimEv role] })

def traceReveal (g : Game) (pid : Nat) (role : Role) : Game :=
  updatePlayer g pid (fun p => { p with trace := p.trace ++ [.revealEv role] })

def traceLostChallenge (g : Game) (pid : Nat) (role : Role) : Game :=
  updatePlayer g pid (fun p => { p with trace := p.trace ++ [.lostChallengeEv role] })

def traceExchange (g : Game) (pid : Nat) : Game :=
  updatePlayer g pid (fun p => { p with trace := p.trace ++ [.exchangeEv] })

/-! ## Dealer operations (dealer.py) -/

/-- CoupDealer.deal_cards: pops `n` cards off the end of the deck
(Python `list.pop()`); popping an empty deck is an IndexError. -/
def dealCards (g : Game) : Nat → Except Err (List Role × Game)
  | 0 => .ok ([], g)
  | n+1 =>
    match g.deck.getLast? with
    | none => .error (.runtime "pop from empty list")
    | some r =>
      match dealCards { g with deck := g.deck.dropLast } n with
      | .ok (rs, g') => .ok (r :: rs, g')
      | .error e => .error e

/-- CoupDealer.replace_cards: return cards to the deck and reshuffle. -/
def replaceCards (O : Oracle) (g : Game) (cards : List Role) : Game :=
  { g with deck := O.shuffle (g.deck ++ cards) }

/-! ## get_next_player, reveal_role, replace_role -/

/-- The loop body of Coup.get_next_player; `fuel` bounds the while-loop
(the source loop visits at most `num_players` seats before either finding
a live player or raising). -/
def getNextPlayerAux (g : Game) (start : Nat) : Nat → Nat → Except Err Nat
  | 0, _ => .error (.runtime "Unexpected state: only one player left alive")
  | fuel+1, cur =>
    let nxt := (cur + 1) % g.num_players
    if isAlive g nxt then .ok nxt
    else if nxt = start then .error (.runtime "Unexpected state: only one player left alive")
    else getNextPlayerAux g start fuel nxt

/-- Coup.get_next_player: next live seat after `pid` (skipping the dead);
raises if everyone else is dead and `pid` is dead too. -/
def getNextPlayer (g : Game) (pid : Nat) : Except Err Nat :=
  getNextPlayerAux g pid (g.num_players + 1) pid

/-- Coup.reveal_role: move a hidden role to revealed; if exactly one player
remains alive the state becomes GameOver.  Python list.remove raises
ValueError when the role is absent. -/
def revealRole (g : Game) (pid : Nat) (role : Role) : Except Err Game :=
  if (getPlayer g pid).hidden.contains role then
    let g := updatePlayer g pid (fun p =>
      { p with hidden := p.hidden.erase role, revealed := p.revealed ++ [role] })
    let live := (List.range g.num_players).filter (fun q => isAlive g q)
    match live with
    | [w] => .ok { g with state := .gameOver w }
    | _ => .ok g
  else .error (.runtime "list.remove(x): x not in list")

/-- Coup.replace_role: swap a hidden role for a fresh card from the deck. -/
def replaceRole (O : Oracle) (g : Game) (pid : Nat) (role : Role) : Except Err Game :=
  if (getPlayer g pid).hidden.contains role then
    let g := updatePlayer g pid (fun p => { p with hidden := p.hidden.erase role })
    let g := replaceCards O g [role]
    match dealCards g 1 with
    | .ok (rs, g) => .ok (updatePlayer g pid (fun p => { p with hidden := p.hidden ++ rs }))
    | .error e => .error e
  else .error (.runtime "list.remove(x): x not in list")

/-- Coup.replace_all_roles (used at the end of an exchange). -/
def replaceAllRoles (g : Game) (pid : Nat) (roles : List Role) : Except Err Game :=
  if roles.length = (getPlayer g pid).hidden.length then
    .ok (updatePlayer g pid (fun p => { p with hidden := roles }))
  else .error (.runtime "assert len(roles) == len(player.hidden)")

/-- Coup.end_turn: no-op when the game is over, otherwise pass the turn to
the next live player.  `cur` is the current Turn (its `player_id` seeds the
search; on error the exception propagates with the tree unchanged). -/
def endTurn (g : Game) (cur : TurnSt) : PlayResult :=
  match g.state with
  | .gameOver _ => .ok g
  | .turn _ =>
    match getNextPlayer g cur.player_id with
    | .ok nxt => .ok { g with state := .turn ⟨nxt, none⟩ }
    | .error e => .err e (setTurn g cur)

/-! ## Action resolution (classes Action, Challenge, Block, Reveal)

The source threads control through parent pointers: a child resolver calls
back into its parent (`resolve_challenge`, `resolve_block`, `after_reveal`).
Here the owning Action (and, for a challenge over a block, the Block) is
passed explicitly; `tp` is the Turn's `player_id`, used to rebuild the tree. -/

/-- Where a Challenge sits: directly on the Action, or on its Block. -/
inductive ChalCtx
  | onAction
  | onBlock (b : Block)
deriving DecidableEq, Repr

/-- Rebuild the action sub-tree around an updated challenge. -/
def putChal (a : ActionSt) (ctx : ChalCtx) (ch : Option Challenge) : ActionSt :=
  match ctx with
  | .onAction => { a with challenge := ch }
  | .onBlock b => { a with block := some { b with challenge := ch } }

/-- Challenge.__init__: records the claim; the first responder is the next
live player after the challenged one. -/
def mkChallenge (g : Game) (challenged : Nat) (role : Role) :
    Except Err (Game × Challenge) :=
  match getNextPlayer g challenged with
  | .error e => .error e
  | .ok nxt =>
    .ok (traceClaim g challenged role,
         { challenged_player := challenged, role := role, player_id := nxt })

/-- Block.__init__ (roles are already a list here). -/
def mkBlock (g : Game) (actorPid : Nat) (roles : List Role) (blocker : Option Nat) :
    Except Err Block :=
  match blocker with
  | some b => .ok { blocking_player_id := some b, player_id := b, roles := roles }
  | none =>
    match getNextPlayer g actorPid with
    | .error e => .error e
    | .ok nxt => .ok { blocking_player_id := none, player_id := nxt, roles := roles }

/-- Action.action_accepted: steal and assassinate install their block,
everything else is a no-op. -/
def actionAccepted (g : Game) (a : ActionSt) : Except Err ActionSt :=
  match a.name with
  | .steal =>
    match mkBlock g a.player_id [.ambassador, .captain] a.target_player with
    | .ok b => .ok { a with block := some b }
    | .error e => .error e
  | .assassinate =>
    match mkBlock g a.player_id [.contessa] a.target_player with
    | .ok b => .ok { a with block := some b }
    | .error e => .error e
  | _ => .ok a

/-- The subclass `do_action` methods.  income and coup never reach here
(income is immediate, coup has neither challenge nor block). -/
def doAction (g : Game) (tp : Nat) (a : ActionSt) : PlayResult :=
  match a.name with
  | .foreign_aid => endTurn (addCash g a.player_id 2) ⟨tp, some a⟩
  | .tax => endTurn (addCash g a.player_id 3) ⟨tp, some a⟩
  | .steal =>
    match a.target_player with
    | some tgt =>
      let (g, cash) := deductCash g tgt 2
      endTurn (addCash g a.player_id cash) ⟨tp, some a⟩
    | none => .err (.runtime "steal without target") (setTurn g ⟨tp, some a⟩)
  | .exchange =>
    match a.drawn_roles with
    | some _ => .err (.runtime "assert drawn_roles is None") (setTurn g ⟨tp, some a⟩)
    | none =>
      match dealCards g 2 with
      | .ok (rs, g) => .ok (setTurn g ⟨tp, some { a with drawn_roles := some rs }⟩)
      | .error e => .err e (setTurn g ⟨tp, some a⟩)
  | .assassinate =>
    match a.target_player with
    | some tgt =>
      .ok (setTurn g ⟨tp, some { a with final_action := some ⟨tgt, .direct_attack⟩ }⟩)
    | none => .err (.runtime "assassinate without target") (setTurn g ⟨tp, some a⟩)
  | _ => .err (.runtime "NotImplementedError: do_action") (setTurn g ⟨tp, some a⟩)

/-- Tail of Action.resolve_challenge once the action is allowed and any
dead-target short-circuit is past: `action_accepted()`, then `do_action()`
unless a block was installed. -/
def afterAccept (g : Game) (tp : Nat) (a : ActionSt) : PlayResult :=
  match actionAccepted g a with
  | .error e => .err e (setTurn g ⟨tp, some a⟩)
  | .ok a' =>
    match a'.block with
    | none => doAction g tp a'
    | some _ => .ok (setTurn g ⟨tp, some a'⟩)

/-- Action.resolve_challenge. -/
def actionResolveChallenge (g : Game) (tp : Nat) (a0 : ActionSt)
    (allowed : Bool) : PlayResult :=
  let a := { a0 with challenge := none }
  if allowed then
    let (g, _) := deductCash g a.player_id a.name.cost
    match a.target_player with
    | some tgt =>
      if isAlive g tgt then afterAccept g tp a
      else endTurn g ⟨tp, some a⟩
    | none => afterAccept g tp a
  else
    endTurn g ⟨tp, some a⟩

/-- Action.resolve_block. -/
def actionResolveBlock (g : Game) (tp : Nat) (a0 : ActionSt)
    (allowed : Bool) : PlayResult :=
  let a := { a0 with block := none }
  if allowed then
    match a.target_player with
    | some tgt =>
      if isAlive g tgt then doAction g tp a
      else endTurn g ⟨tp, some a⟩
    | none => doAction g tp a
  else
    endTurn g ⟨tp, some a⟩

/-- `parent.resolve_challenge(flag)`: for a challenge over the initial
action this is Action.resolve_challenge; for a challenge over a block it is
Block.resolve_challenge, which forwards `not flag` to Action.resolve_block. -/
def parentResolveChal (g : Game) (tp : Nat) (a : ActionSt)
    (ctx : ChalCtx) (flag : Bool) : PlayResult :=
  match ctx with
  | .onAction => actionResolveChallenge g tp a flag
  | .onBlock _ => actionResolveBlock g tp a (!flag)

/-- The while-loop of Challenge._reveal_next_challenger; `fuel` bounds it
(each iteration moves to the next live seat, and the challenged player is
reached after at most `num_players` moves). -/
def revealNextChallengerAux (g : Game) (tp : Nat) (a : ActionSt)
    (ctx : ChalCtx) (ch : Challenge) : Nat → Nat → PlayResult
  | 0, _ => .err (.runtime "cascade loop failed to terminate")
      (setTurn g ⟨tp, some (putChal a ctx (some ch))⟩)
  | fuel+1, pid =>
    match getNextPlayer g pid with
    | .error e => .err e (setTurn g ⟨tp, some (putChal a ctx (some ch))⟩)
    | .ok q =>
      if q = ch.challenged_player then
        parentResolveChal g tp a ctx true
      else
        match ch.responses.lookup q with
        | some .challengeR =>
          let phase : RevealPhase :=
            if ch.challenge_correct.getD false then .correct_challenge
            else .incorrect_challenge
          .ok (setTurn g ⟨tp, some (putChal a ctx
                (some { ch with reveal := some ⟨q, phase⟩ }))⟩)
        | some .passR => revealNextChallengerAux g tp a ctx ch fuel q
        | none => .err (.runtime "KeyError: responses")
            (setTurn g ⟨tp, some (putChal a ctx (some ch))⟩)

/-- Challenge._reveal_next_challenger. -/
def revealNextChallenger (g : Game) (tp : Nat) (a : ActionSt)
    (ctx : ChalCtx) (ch : Challenge) (pid : Nat) : PlayResult :=
  revealNextChallengerAux g tp a ctx ch (g.num_players + 1) pid

/-- Challenge.after_reveal. -/
def challengeAfterReveal (O : Oracle) (g : Game) (tp : Nat) (a : ActionSt)
    (ctx : ChalCtx) (ch : Challenge) (revealed : Role) : PlayResult :=
  match ch.challenge_correct with
  | none =>
    let correct : Bool := revealed ≠ ch.role
    let ch := { ch with challenge_correct := some correct }
    if correct then
      match revealRole g ch.challenged_player revealed with
      | .error e => .err e (setTurn g ⟨tp, some (putChal a ctx (some ch))⟩)
      | .ok g =>
        let g := traceLostChallenge g ch.challenged_player ch.role
        parentResolveChal g tp a ctx false
    else
      match replaceRole O g ch.challenged_player revealed with
      | .error e => .err e (setTurn g ⟨tp, some (putChal a ctx (some ch))⟩)
      | .ok g => revealNextChallenger g tp a ctx ch ch.challenged_player
  | some cc =>
    if cc then
      .err (.runtime "assert not self.challenge_correct")
        (setTurn g ⟨tp, some (putChal a ctx (some ch))⟩)
    else
      match ch.reveal with
      | some rv =>
        match revealRole g rv.player_id revealed with
        | .error e => .err e (setTurn g ⟨tp, some (putChal a ctx (some ch))⟩)
        | .ok g => revealNextChallenger g tp a ctx ch rv.player_id
      | none =>
        .err (.runtime "AttributeError: reveal is None")
          (setTurn g ⟨tp, some (putChal a ctx (some ch))⟩)

/-- Challenge.play_action (including the embedded Reveal.play_action when a
reveal is pending). -/
def challengePlayAction (O : Oracle) (g : Game) (tp : Nat) (a : ActionSt)
    (ctx : ChalCtx) (ch : Challenge) (act : PAct) : PlayResult :=
  match ch.reveal with
  | some rv =>
    match act with
    | .revealA r =>
      if playerHasRole g rv.player_id r then
        let g := traceReveal g rv.player_id r
        challengeAfterReveal O g tp a ctx ch r
      else
        .err (.illegal "Player does not have role")
          (setTurn g ⟨tp, some (putChal a ctx (some ch))⟩)
    | _ =>
      .err (.illegal "Unknown action")
        (setTurn g ⟨tp, some (putChal a ctx (some ch))⟩)
  | none =>
    let respond (resp : ChalResp) : PlayResult :=
      let ch := { ch with responses := ch.responses ++ [(ch.player_id, resp)] }
      match getNextPlayer g ch.player_id with
      | .error e => .err e (setTurn g ⟨tp, some (putChal a ctx (some ch))⟩)
      | .ok nxt =>
        if nxt = ch.challenged_player then
          if ch.responses.any (fun pr => pr.2 = .challengeR) then
            .ok (setTurn g ⟨tp, some (putChal a ctx
                  (some { ch with reveal := some ⟨ch.challenged_player, .prove_challenge⟩ }))⟩)
          else
            parentResolveChal g tp a ctx true
        else
          .ok (setTurn g ⟨tp, some (putChal a ctx (some { ch with player_id := nxt }))⟩)
    match act with
    | .passA => respond .passR
    | .challengeA => respond .challengeR
    | _ =>
      .err (.illegal "Unknown action")
        (setTurn g ⟨tp, some (putChal a ctx (some ch))⟩)

/-- Block._extract_response. -/
def blockExtractResponse (b : Block) (act : PAct) : Except Err BlockResp :=
  match act with
  | .passA => .ok .passB
  | .blockA r => if b.roles.contains r then .ok (.withRole r) else .error (.illegal "Unknown action")
  | _ => .error (.illegal "Unknown action")

/-- Block._execute_block. -/
def executeBlock (O : Oracle) (g : Game) (tp : Nat) (a : ActionSt) (b : Block) :
    PlayResult :=
  let blocks := b.responses.filter (fun pr => pr.2 ≠ .passB)
  match blocks with
  | [] => actionResolveBlock g tp a true
  | _ =>
    let chosen :=
      match blocks with
      | [bl] => some bl
      | _ => blocks.get? (O.chooseIdx blocks.length)
    match chosen with
    | some (pid, .withRole r) =>
      match mkChallenge g pid r with
      | .error e => .err e (setTurn g ⟨tp, some { a with block := some b }⟩)
      | .ok (g, ch) =>
        .ok (setTurn g ⟨tp, some { a with block := some { b with challenge := some ch } }⟩)
    | some (_, .passB) =>
      .err (.runtime "pass selected as block") (setTurn g ⟨tp, some { a with block := some b }⟩)
    | none =>
      .err (.runtime "IndexError: choose") (setTurn g ⟨tp, some { a with block := some b }⟩)

/-- Block.play_action. -/
def blockPlayAction (O : Oracle) (g : Game) (tp : Nat) (a : ActionSt) (b : Block)
    (act : PAct) : PlayResult :=
  match b.challenge with
  | some ch => challengePlayAction O g tp a (.onBlock b) ch act
  | none =>
    match blockExtractResponse b act with
    | .error e => .err e (setTurn g ⟨tp, some { a with block := some b }⟩)
    | .ok resp =>
      let b := { b with responses := b.responses ++ [(b.player_id, resp)] }
      match b.blocking_player_id with
      | some _ => executeBlock O g tp a b
      | none =>
        match getNextPlayer g b.player_id with
        | .error e => .err e (setTurn g ⟨tp, some { a with block := some b }⟩)
        | .ok nxt =>
          if nxt = a.player_id then executeBlock O g tp a b
          else .ok (setTurn g ⟨tp, some { a with block := some { b with player_id := nxt } }⟩)

/-- AssassinateAction.after_reveal / CoupAction.after_reveal: the target
loses the revealed influence and the turn ends. -/
def actionAfterReveal (g : Game) (tp : Nat) (a : ActionSt) (revealed : Role) :
    PlayResult :=
  match a.target_player with
  | some tgt =>
    match revealRole g tgt revealed with
    | .error e => .err e (setTurn g ⟨tp, some a⟩)
    | .ok g => endTurn g ⟨tp, some a⟩
  | none => .err (.runtime "after_reveal without target") (setTurn g ⟨tp, some a⟩)

/-- ExchangeAction.play_final_action (the base class raises for others). -/
def playFinalAction (O : Oracle) (g : Game) (tp : Nat) (a : ActionSt) (act : PAct) :
    PlayResult :=
  match a.name with
  | .exchange =>
    match act with
    | .keepA new_roles =>
      let existing := getInfluence g a.player_id
      if new_roles.length ≠ existing.length then
        .err (.illegal "Must choose roles") (setTurn g ⟨tp, some a⟩)
      else
        match a.drawn_roles with
        | none => .err (.runtime "TypeError: drawn_roles is None") (setTurn g ⟨tp, some a⟩)
        | some drawn =>
          match removeAll (existing ++ drawn) new_roles with
          | none => .err (.illegal "Chosen roles are not available") (setTurn g ⟨tp, some a⟩)
          | some rest =>
            match replaceAllRoles g a.player_id new_roles with
            | .error e => .err e (setTurn g ⟨tp, some a⟩)
            | .ok g =>
              let g := replaceCards O g rest
              let g := traceExchange g a.player_id
              endTurn g ⟨tp, some a⟩
    | _ => .err (.illegal "Unknown action") (setTurn g ⟨tp, some a⟩)
  | _ => .err (.runtime "Unexpected state: could not resolve action") (setTurn g ⟨tp, some a⟩)
where
  /-- The removal loop of play_final_action: take each chosen role out of
  the pool, failing if one is not available. -/
  removeAll : List Role → List Role → Option (List Role)
    | pool, [] => some pool
    | pool, r :: rs => if pool.contains r then removeAll (pool.erase r) rs else none

/-- Action.play_action: dispatch to the active sub-resolver. -/
def actionPlayAction (O : Oracle) (g : Game) (tp : Nat) (a : ActionSt) (act : PAct) :
    PlayResult :=
  match a.challenge with
  | some ch => challengePlayAction O g tp a .onAction ch act
  | none =>
    match a.block with
    | some b => blockPlayAction O g tp a b act
    | none =>
      match a.final_action with
      | some rv =>
        match act with
        | .revealA r =>
          if playerHasRole g rv.player_id r then
            let g := traceReveal g rv.player_id r
            actionAfterReveal g tp a r
          else .err (.illegal "Player does not have role") (setTurn g ⟨tp, some a⟩)
        | _ => .err (.illegal "Unknown action") (setTurn g ⟨tp, some a⟩)
      | none => playFinalAction O g tp a act

/-! ## Turn: parsing and playing the initial action -/

/-- The outcome of matching an action string against ACTION_RE: the action
name, and the target player for targeted actions. -/
def actInfo : PAct → Option (ActName × Option Nat)
  | .incomeA => some (.income, none)
  | .foreignAidA => some (.foreign_aid, none)
  | .taxA => some (.tax, none)
  | .exchangeA => some (.exchange, none)
  | .stealA t => some (.steal, some t)
  | .assassinateA t => some (.assassinate, some t)
  | .coupA t => some (.coup, some t)
  | _ => none

/-- Turn._can_afford_action. -/
def canAffordAction (g : Game) (pid : Nat) (name : ActName) : Bool :=
  canAfford g pid name.cost

/-- Builds the Action subclass object and runs `action.init()`
(which deducts the cost when the action has no up-front challenge). -/
def buildInitialAction (g : Game) (tp : Nat) (name : ActName)
    (target : Option Nat) : PlayResult :=
  match name with
  | .income =>
    -- income is executed immediately: add_cash then end_turn
    endTurn (addCash g tp 1) ⟨tp, none⟩
  | .foreign_aid =>
    match mkBlock g tp [.duke] none with
    | .error e => .err e (setTurn g ⟨tp, none⟩)
    | .ok b =>
      let a : ActionSt := { name := .foreign_aid, player_id := tp, block := some b }
      let (g, _) := deductCash g tp ActName.foreign_aid.cost
      .ok (setTurn g ⟨tp, some a⟩)
  | .tax =>
    match mkChallenge g tp .duke with
    | .error e => .err e (setTurn g ⟨tp, none⟩)
    | .ok (g, ch) =>
      .ok (setTurn g ⟨tp, some { name := .tax, player_id := tp, challenge := some ch }⟩)
  | .exchange =>
    match mkChallenge g tp .ambassador with
    | .error e => .err e (setTurn g ⟨tp, none⟩)
    | .ok (g, ch) =>
      .ok (setTurn g ⟨tp, some { name := .exchange, player_id := tp, challenge := some ch }⟩)
  | .steal =>
    match mkChallenge g tp .captain with
    | .error e => .err e (setTurn g ⟨tp, none⟩)
    | .ok (g, ch) =>
      .ok (setTurn g ⟨tp, some { name := ActName.steal, player_id := tp, target_player := target, challenge := some ch }⟩)
  | .assassinate =>
    match mkChallenge g tp .assassin with
    | .error e => .err e (setTurn g ⟨tp, none⟩)
    | .ok (g, ch) =>
      .ok (setTurn g ⟨tp, some { name := ActName.assassinate, player_id := tp, target_player := target, challenge := some ch }⟩)
  | .coup =>
    match target with
    | some tgt =>
      let a : ActionSt := { name := .coup, player_id := tp, target_player := some tgt, final_action := some ⟨tgt, .direct_attack⟩ }
      let (g, _) := deductCash g tp ActName.coup.cost
      .ok (setTurn g ⟨tp, some a⟩)
    | none => .err (.runtime "coup without target") (setTurn g ⟨tp, none⟩)

/-- Turn._play_initial_action: parse, validate (target in range, cost
affordable, mandatory coup), then build and install the action. -/
def turnPlayInitial (g : Game) (tp : Nat) (act : PAct) : PlayResult :=
  match actInfo act with
  | none => .err (.illegal "Unknown action") (setTurn g ⟨tp, none⟩)
  | some (name, target) =>
    if (target.map (fun t => decide (g.num_players ≤ t))).getD false then
      .err (.illegal "Unknown target player") (setTurn g ⟨tp, none⟩)
    else if ¬ canAffordAction g tp name then
      .err (.illegal "Cannot afford action") (setTurn g ⟨tp, none⟩)
    else if canAfford g tp 10 ∧ name ≠ .coup then
      .err (.illegal "Players with 10 or more credits must coup") (setTurn g ⟨tp, none⟩)
    else
      buildInitialAction g tp name target

/-- Turn.play_action. -/
def turnPlayAction (O : Oracle) (g : Game) (t : TurnSt) (act : PAct) : PlayResult :=
  match t.action with
  | some a => actionPlayAction O g t.player_id a act
  | none => turnPlayInitial g t.player_id act

/-! ## player_to_act -/

def chalPlayerToAct (ch : Challenge) : Nat :=
  match ch.reveal with
  | some rv => rv.player_id
  | none => ch.player_id

def blockPlayerToAct (b : Block) : Nat :=
  match b.challenge with
  | some ch => chalPlayerToAct ch
  | none => b.player_id

def actionPlayerToAct (a : ActionSt) : Nat :=
  match a.challenge with
  | some ch => chalPlayerToAct ch
  | none =>
    match a.block with
    | some b => blockPlayerToAct b
    | none =>
      match a.final_action with
      | some rv => rv.player_id
      | none => a.player_id

def turnPlayerToAct (t : TurnSt) : Nat :=
  match t.action with
  | some a => actionPlayerToAct a
  | none => t.player_id

/-- Coup.player_to_act (GameOver.player_to_act returns None). -/
def playerToAct (g : Game) : Option Nat :=
  match g.state with
  | .turn t => some (turnPlayerToAct t)
  | .gameOver _ => none

/-! ## Coup.play_action (the public driver) -/

/-- Coup.play_action: delegate to the current state; afterwards, if the
game is not over, fail loudly when the player to act is dead.  Playing into
a GameOver state is a fatal fault (GameOver has no play_action method). -/
def postCheck : PlayResult → PlayResult
  | .err e g' => .err e g'
  | .ok g' =>
    match g'.state with
    | .gameOver _ => .ok g'
    | .turn t' =>
      if isAlive g' (turnPlayerToAct t') then .ok g'
      else .err (.runtime "Unexpected state: player to act is dead") g'

/-- Coup.play_action: delegate to the current state, then run the
aliveness post-check. -/
def playAction (O : Oracle) (g : Game) (act : PAct) : PlayResult :=
  match g.state with
  | .gameOver _ => .err (.runtime "AttributeError: GameOver.play_action") g
  | .turn t => postCheck (turnPlayAction O g t act)

/-! ## Game initialization (Coup.init_game, CoupDealer.__init__) -/

/-- Deal two hidden cards to each of `n` players in seat order. -/
def dealPlayers (g : Game) : Nat → Except Err (List Player × Game)
  | 0 => .ok ([], g)
  | n+1 =>
    match dealCards g 2 with
    | .error e => .error e
    | .ok (cards, g) =>
      match dealPlayers g n with
      | .error e => .error e
      | .ok (rest, g) =>
        .ok ({ cash := 2, hidden := cards, revealed := [], trace := [] } :: rest, g)

/-- Coup.init_game with the default dealer: the deck is three copies of
each role, shuffled; every player is dealt two cards; seat 0 starts. -/
def initGame (O : Oracle) (num_players : Nat) : Except Err Game :=
  let g0 : Game := { num_players := num_players, players := [],
                     deck := O.shuffle (ALL_ROLES ++ ALL_ROLES ++ ALL_ROLES),
                     state := .turn ⟨0, none⟩ }
  match dealPlayers g0 num_players with
  | .error e => .error e
  | .ok (ps, g) => .ok { g with players := ps }

/-! ## Action strings and legal actions -/

/-- The wire encoding of an action (the strings of §6 of the spec). -/
def PAct.str : PAct → String
  | .incomeA => "income"
  | .foreignAidA => "foreign_aid"
  | .taxA => "tax"
  | .exchangeA => "exchange"
  | .stealA t => "steal:" ++ toString t
  | .assassinateA t => "assassinate:" ++ toString t
  | .coupA t => "coup:" ++ toString t
  | .passA => "pass"
  | .challengeA => "challenge"
  | .blockA r => "block:" ++ r.name
  | .revealA r => "reveal:" ++ r.name
  | .keepA rs => "keep:" ++ String.intercalate "," (rs.map Role.name)
  | .otherA => ""

/-- Python `sorted` on a list of strings. -/
def sortStrings (l : List String) : List String :=
  sortByLe strLe l

/-- constants.py UNTARGETED_ACTIONS (sorted). -/
def UNTARGETED_ACTIONS : List ActName := [.exchange, .foreign_aid, .income, .tax]

/-- constants.py TARGETED_ACTIONS (sorted). -/
def TARGETED_ACTIONS : List ActName := [.assassinate, .coup, .steal]

/-- The `n`-element combinations of a list, in itertools order. -/
def combos : List Role → Nat → List (List Role)
  | _, 0 => [[]]
  | [], _+1 => []
  | r :: rest, n+1 => (combos rest n).map (r :: ·) ++ combos rest (n+1)

/-- Modelled from the spec: `get_keep_actions` is imported by coup.py from
utils.py but is absent from the provided sources.  Spec (§4.5): the legal
final actions of an exchange are `KEEP:{r1[,r2]}` — all multisets of size
`n` drawable from the pool, canonicalized by sorted role names and
de-duplicated, as a sorted list of action strings. -/
def get_keep_actions (pool : List Role) (n : Nat) : List String :=
  sortStrings ((((combos pool n).map sortRoles).dedup).map (fun rs => (PAct.keepA rs).str))

/-- Reveal.get_legal_actions. -/
def revealLegal (g : Game) (rv : Reveal) : List String :=
  (getInfluence g rv.player_id).map (fun r => (PAct.revealA r).str)

/-- Challenge.get_legal_actions. -/
def chalLegal (g : Game) (ch : Challenge) : List String :=
  match ch.reveal with
  | some rv => revealLegal g rv
  | none => ["pass", "challenge"]

/-- Block.get_legal_actions. -/
def blockLegal (g : Game) (b : Block) : List String :=
  match b.challenge with
  | some ch => chalLegal g ch
  | none => "pass" :: b.roles.map (fun r => (PAct.blockA r).str)

/-- Action.get_legal_actions, with the ExchangeAction override. -/
def actionLegal (g : Game) (a : ActionSt) : Except Err (List String) :=
  if a.name = .exchange ∧ ¬ (a.drawn_roles.getD []).isEmpty then
    let existing := getInfluence g a.player_id
    .ok (get_keep_actions (existing ++ a.drawn_roles.getD []) existing.length)
  else
    match a.challenge with
    | some ch => .ok (chalLegal g ch)
    | none =>
      match a.block with
      | some b => .ok (blockLegal g b)
      | none =>
        match a.final_action with
        | some rv => .ok (revealLegal g rv)
        | none => .error (.runtime "Unexpected state: could not determine legal actions")

/-- Turn.get_legal_actions. -/
def turnLegal (g : Game) (t : TurnSt) : Except Err (List String) :=
  match t.action with
  | some a => actionLegal g a
  | none =>
    if canAfford g t.player_id 10 then
      .ok (sortStrings (((List.range g.num_players).filter
        (fun p => isAlive g p && p ≠ t.player_id)).map (fun p => (PAct.coupA p).str)))
    else
      .ok (sortStrings (UNTARGETED_ACTIONS.map ActName.str ++
        (TARGETED_ACTIONS.flatMap (fun a =>
          ((List.range g.num_players).filter (fun p =>
            isAlive g p && p ≠ t.player_id && canAffordAction g t.player_id a)).map
              (fun p => a.str ++ ":" ++ toString p)))))

/-- Coup.get_legal_actions (GameOver has none). -/
def getLegalActions (g : Game) : Except Err (List String) :=
  match g.state with
  | .gameOver _ => .ok []
  | .turn t => turnLegal g t

/-! ## get_state -/

/-- CoupPlayer.get_state: cash, hidden and revealed sorted by role name
(fresh lists), and a copy of the trace. -/
structure PlayerSt where
  cash : Nat
  hidden : List Role
  revealed : List Role
  trace : List TraceEv
deriving DecidableEq, Repr

def playerGetState (p : Player) : PlayerSt :=
  { cash := p.cash, hidden := sortRoles p.hidden,
    revealed := sortRoles p.revealed, trace := p.trace }

/-- Modelled from the spec: `CoupDealer.get_state` is called by
`Coup.get_state` but is missing from the provided dealer.py.  Spec (§6):
`dealer: { deck: [Role] }`, the current contents of the deck, exposed for
perfect-information play and tests. -/
structure DealerSt where
  deck : List Role
deriving DecidableEq, Repr

def dealerGetState (g : Game) : DealerSt := ⟨g.deck⟩

def revealPhaseStr : RevealPhase → String
  | .prove_challenge => "prove_challenge"
  | .correct_challenge => "correct_challenge"
  | .incorrect_challenge => "incorrect_challenge"
  | .direct_attack => "direct_attack"

/-- The `game` entry of the state dictionary; absent keys are `none`. -/
structure GameDict where
  phase : String
  whose_turn : Option Nat := none
  player_to_act : Option Nat := none
  action : Option String := none
  target_player : Option Nat := none
  blocked_with : Option String := none
  blocking_player : Option Nat := none
  drawn_roles : Option (List Role) := none
  winning_player : Option Nat := none
deriving DecidableEq, Repr

/-- Challenge.augment_state. -/
def chalAugment (ch : Challenge) (s : GameDict) : GameDict :=
  match ch.reveal with
  | some rv => { s with phase := revealPhaseStr rv.phase_name }
  | none => s

/-- Block.augment_state. -/
def blockAugment (b : Block) (s : GameDict) : GameDict :=
  match b.challenge with
  | some ch =>
    chalAugment ch { s with phase := "awaiting_block_challenge",
                            blocked_with := some ch.role.name,
                            blocking_player := some ch.challenged_player }
  | none => s

/-- Action.augment_state, with the ExchangeAction override. -/
def actionAugment (a : ActionSt) (s : GameDict) : GameDict :=
  let s := { s with action := some a.name.str }
  let s := match a.target_player with
    | some t => { s with target_player := some t }
    | none => s
  let s := match a.challenge with
    | some ch => chalAugment ch { s with phase := "awaiting_challenge" }
    | none => s
  let s := match a.block with
    | some b => blockAugment b { s with phase := "awaiting_block" }
    | none => s
  let s := match a.final_action with
    | some rv => { s with phase := revealPhaseStr rv.phase_name }
    | none => s
  if a.name = .exchange ∧ ¬ (a.drawn_roles.getD []).isEmpty then
    { s with phase := "choose_new_roles", drawn_roles := a.drawn_roles }
  else s

/-- Turn.get_state / GameOver.get_state. -/
def stateGameDict : GState → GameDict
  | .turn t =>
    let s : GameDict := { phase := "start_of_turn", whose_turn := some t.player_id,
                          player_to_act := some (turnPlayerToAct t) }
    match t.action with
    | some a => actionAugment a s
    | none => s
  | .gameOver w => { phase := "game_over", winning_player := some w }

/-- The dictionary returned by Coup.get_state. -/
structure FullState where
  players : List PlayerSt
  game : GameDict
  dealer : DealerSt
deriving DecidableEq, Repr

/-- Coup.get_state. -/
def getState (g : Game) : FullState :=
  { players := g.players.map playerGetState,
    game := stateGameDict g.state,
    dealer := dealerGetState g }

/-! ## Derived notions used by the specification -/

/-- The game as it stands after a play, successful or not. -/
def PlayResult.game : PlayResult → Game
  | .ok g => g
  | .err _ g => g

/-- Did the play raise IllegalAction? -/
def PlayResult.isIllegal : PlayResult → Bool
  | .err (.illegal _) _ => true
  | _ => false

/-- Cards on the table: deck plus every player's hidden and revealed. -/
def cardCount (g : Game) : Nat :=
  g.deck.length + (g.players.map (fun p => p.hidden.length + p.revealed.length)).sum

/-- Cards drawn by an in-flight exchange, held by the Turn tree. -/
def drawnOfTurn (t : TurnSt) : Nat :=
  match t.action with
  | some a => (a.drawn_roles.getD []).length
  | none => 0

/-- Cards drawn by an in-flight exchange and not yet kept or returned. -/
def drawnCount (g : Game) : Nat :=
  match g.state with
  | .turn t => drawnOfTurn t
  | .gameOver _ => 0

/-- All role cards accounted for, including an exchange's drawn cards. -/
def totalCards (g : Game) : Nat := cardCount g + drawnCount g

/-- A shuffle of the injected RNG permutes the deck, so it keeps its
length (np_random.shuffle is in-place). -/
def Oracle.LengthPres (O : Oracle) : Prop :=
  ∀ l, (O.shuffle l).length = l.length

/-- The states reachable by the public driver: `init_game` followed by any
sequence of successful `play_action` calls, under any RNGs. -/
inductive Reachable : Game → Prop
  | init (O : Oracle) (n : Nat) (g : Game) :
      O.LengthPres → initGame O n = .ok g → Reachable g
  | step (O : Oracle) (g g' : Game) (a : PAct) :
      O.LengthPres → Reachable g → playAction O g a = .ok g' → Reachable g'

/-- A deterministic oracle used for concrete runs: the shuffle is the
identity permutation and choices pick index 0. -/
def idO : Oracle := ⟨id, fun _ => 0⟩

theorem idO_lengthPres : idO.LengthPres := fun _ => rfl

/-! ## Sorting lemmas -/

theorem insertLe_perm (le : α → α → Bool) (x : α) (l : List α) :
    (insertLe le x l).Perm (x :: l) := by
  induction l with
  | nil => exact List.Perm.refl _
  | cons y ys ih =>
    unfold insertLe
    split
    · exact ((ih.cons y).trans (List.Perm.swap x y ys))
    · exact List.Perm.refl _

theorem sortByLe_perm_aux (le : α → α → Bool) :
    ∀ (l acc : List α), (l.foldl (fun acc x => insertLe le x acc) acc).Perm (acc ++ l) := by
  intro l
  induction l with
  | nil => intro acc; simp
  | cons x xs ih =>
    intro acc
    have h1 := ih (insertLe le x acc)
    have h2 : (insertLe le x acc ++ xs).Perm ((x :: acc) ++ xs) :=
      (insertLe_perm le x acc).append_right xs
    have h3 : ((x :: acc) ++ xs).Perm (acc ++ x :: xs) := List.perm_middle.symm
    simpa using (h1.trans (h2.trans h3))

theorem sortByLe_perm (le : α → α → Bool) (l : List α) : (sortByLe le l).Perm l := by
  simpa using sortByLe_perm_aux le l []

theorem insertLe_sorted (le : α → α → Bool)
    (htot : ∀ a b, (le a b || le b a) = true)
    (htrans : ∀ a b c, le a b = true → le b c = true → le a c = true)
    (x : α) (l : List α) (hl : l.Pairwise (fun a b => le a b = true)) :
    (insertLe le x l).Pairwise (fun a b => le a b = true) := by
  induction l with
  | nil => simp [insertLe]
  | cons y ys ih =>
    rcases hl with _ | ⟨hy, hys⟩
    unfold insertLe
    split
    · rename_i hyx
      refine List.Pairwise.cons ?_ (ih hys)
      intro z hz
      have hz' := (insertLe_perm le x ys).mem_iff.mp hz
      rcases List.mem_cons.mp hz' with rfl | hz''
      · exact hyx
      · exact hy z hz''
    · rename_i hyx
      have hxy : le x y = true := by
        rcases Bool.or_eq_true_iff.mp (htot y x) with h | h
        · exact absurd h hyx
        · exact h
      refine List.Pairwise.cons ?_ (List.Pairwise.cons hy hys)
      intro z hz
      rcases List.mem_cons.mp hz with rfl | hz'
      · exact hxy
      · exact htrans x y z hxy (hy z hz')

theorem sortByLe_sorted (le : α → α → Bool)
    (htot : ∀ a b, (le a b || le b a) = true)
    (htrans : ∀ a b c, le a b = true → le b c = true → le a c = true)
    (l : List α) : (sortByLe le l).Pairwise (fun a b => le a b = true) := by
  suffices h : ∀ (l acc : List α), acc.Pairwise (fun a b => le a b = true) →
      (l.foldl (fun acc x => insertLe le x acc) acc).Pairwise (fun a b => le a b = true) by
    exact h l [] (List.Pairwise.nil)
  intro l
  induction l with
  | nil => intro acc h; simpa using h
  | cons x xs ih =>
    intro acc h
    exact ih (insertLe le x acc) (insertLe_sorted le htot htrans x acc h)

theorem sortByLe_congr (le : α → α → Bool)
    (htot : ∀ a b, (le a b || le b a) = true)
    (htrans : ∀ a b c, le a b = true → le b c = true → le a c = true)
    (hanti : ∀ a b, le a b = true → le b a = true → a = b)
    {l l' : List α} (h : l.Perm l') : sortByLe le l = sortByLe le l' := by
  haveI : IsAntisymm α (fun a b => le a b = true) := ⟨hanti⟩
  exact List.eq_of_perm_of_sorted (r := fun a b => le a b = true)
    ((sortByLe_perm le l).trans (h.trans (sortByLe_perm le l').symm))
    (sortByLe_sorted le htot htrans l) (sortByLe_sorted le htot htrans l')

theorem roleNameLe_total : ∀ a b : Role, (strLe a.name b.name || strLe b.name a.name) = true := by
  decide

theorem roleNameLe_trans : ∀ a b c : Role, strLe a.name b.name = true →
    strLe b.name c.name = true → strLe a.name c.name = true := by decide

theorem roleNameLe_antisymm : ∀ a b : Role, strLe a.name b.name = true →
    strLe b.name a.name = true → a = b := by decide

theorem sortRoles_sorted (l : List Role) :
    (sortRoles l).Pairwise (fun a b => strLe a.name b.name = true) :=
  sortByLe_sorted _ roleNameLe_total roleNameLe_trans l

theorem sortRoles_perm (l : List Role) : (sortRoles l).Perm l :=
  sortByLe_perm _ l

theorem sortRoles_congr {l l' : List Role} (h : l.Perm l') :
    sortRoles l = sortRoles l' :=
  sortByLe_congr _ roleNameLe_total roleNameLe_trans roleNameLe_antisymm h

/-! ## Claim theorems -/

/-- C4: for every game state, the state() query returns a dictionary whose
`dealer` entry is `{ deck: [Role] }` listing the current contents of the
deck; the query is a total function, so it never fails. -/
theorem get_state_exposes_dealer_deck (g : Game) :
    (getState g).dealer = { deck := g.deck } := rfl

/-- C10: the per-player state presents hidden and revealed sorted by role
name, as fresh lists that are permutations of the hand; consequently two
hands that differ only in card order produce identical player states, so
the in-hand order is not observable through the state object. -/
theorem player_state_sorted_hides_order (p q : Player)
    (hh : p.hidden.Perm q.hidden) (hr : p.revealed.Perm q.revealed)
    (hc : p.cash = q.cash) (ht : p.trace = q.trace) :
    playerGetState p = playerGetState q ∧
    (playerGetState p).hidden.Pairwise (fun a b => strLe a.name b.name = true) ∧
    (playerGetState p).revealed.Pairwise (fun a b => strLe a.name b.name = true) ∧
    (playerGetState p).hidden.Perm p.hidden ∧
    (playerGetState p).revealed.Perm p.revealed := by
  refine ⟨?_, sortRoles_sorted _, sortRoles_sorted _, sortRoles_perm _, sortRoles_perm _⟩
  simp only [playerGetState, sortRoles_congr hh, sortRoles_congr hr, hc, ht]

/-! ## Concrete states used by counterexamples and witnesses -/

/-- A four-player game at the start of player 0's turn: exactly the state
`init_game` produces from an unshuffled deck (three copies of each role,
dealt from the top of the pile, i.e. the end of the list). -/
def gStart : Game :=
  { num_players := 4,
    players := [⟨2, [.duke, .contessa], [], []⟩, ⟨2, [.captain, .assassin], [], []⟩,
                ⟨2, [.ambassador, .duke], [], []⟩, ⟨2, [.contessa, .captain], [], []⟩],
    deck := [.ambassador, .assassin, .captain, .contessa, .duke, .ambassador, .assassin],
    state := .turn ⟨0, none⟩ }

/-- `gStart` after player 1 has lost both influences (dead). -/
def gDead : Game :=
  { gStart with players := gStart.players.set 1 ⟨2, [], [.captain, .assassin], []⟩ }

/-- `gStart` with player 0 holding 10 credits (mandatory-coup zone). -/
def gRich : Game :=
  { gStart with players := gStart.players.set 0 ⟨10, [.duke, .contessa], [], []⟩ }

/-- A game in the exchange choose-new-roles sub-phase: player 0 holds
duke and contessa and has drawn assassin and ambassador. -/
def gChoose : Game :=
  { num_players := 4,
    players := [⟨2, [.duke, .contessa], [], [.claimEv .ambassador]⟩,
                ⟨2, [.captain, .assassin], [], []⟩,
                ⟨2, [.ambassador, .duke], [], []⟩, ⟨2, [.contessa, .captain], [], []⟩],
    deck := [.ambassador, .assassin, .captain, .contessa, .duke],
    state := .turn ⟨0, some { name := .exchange, player_id := 0,
                              drawn_roles := some [.assassin, .ambassador] }⟩ }

/-! ## Small facts about the step functions -/

theorem setTurn_self {g : Game} {t : TurnSt} (h : g.state = .turn t) :
    setTurn g t = g := by
  cases g with
  | mk np ps dk st => subst h; rfl

theorem getNextPlayerAux_err (g : Game) (start : Nat) :
    ∀ fuel cur e, getNextPlayerAux g start fuel cur = .error e →
      e = .runtime "Unexpected state: only one player left alive" := by
  intro fuel
  induction fuel with
  | zero =>
    intro cur e h
    unfold getNextPlayerAux at h
    exact (Except.error.inj h).symm
  | succ n ih =>
    intro cur e h
    unfold getNextPlayerAux at h
    simp only at h
    split at h
    · exact absurd h (by simp)
    · split at h
      · exact (Except.error.inj h).symm
      · exact ih _ e h

theorem getNextPlayer_err (g : Game) (pid : Nat) {e : Err} :
    getNextPlayer g pid = .error e →
    e = .runtime "Unexpected state: only one player left alive" :=
  getNextPlayerAux_err g pid _ pid e

theorem postCheck_game (r : PlayResult) : (postCheck r).game = r.game := by
  cases r with
  | err e g' => rfl
  | ok g' =>
    cases hgs : g'.state with
    | gameOver w => simp [postCheck, hgs, PlayResult.game]
    | turn t' =>
      cases hA : isAlive g' (turnPlayerToAct t') <;>
        simp [postCheck, hgs, hA, PlayResult.game]

theorem postCheck_isIllegal (r : PlayResult) : (postCheck r).isIllegal = r.isIllegal := by
  cases r with
  | err e g' => rfl
  | ok g' =>
    cases hgs : g'.state with
    | gameOver w => simp [postCheck, hgs, PlayResult.isIllegal]
    | turn t' =>
      cases hA : isAlive g' (turnPlayerToAct t') <;>
        simp [postCheck, hgs, hA, PlayResult.isIllegal]

/-- Witness for C10 at a concrete pair of hands differing only in order. -/
theorem player_state_sorted_hides_order_witness :
    (playerGetState ⟨2, [.duke, .captain], [.contessa], []⟩ =
      playerGetState ⟨2, [.captain, .duke], [.contessa], []⟩) ∧
    (playerGetState ⟨2, [.duke, .captain], [.contessa], []⟩).hidden = [.captain, .duke] := by
  have h := player_state_sorted_hides_order ⟨2, [.duke, .captain], [.contessa], []⟩
    ⟨2, [.captain, .duke], [.contessa], []⟩ (by decide) (by decide) rfl rfl
  exact ⟨h.1, by decide⟩

@[simp] theorem isIllegal_ok (g : Game) : (PlayResult.ok g).isIllegal = false := rfl

@[simp] theorem isIllegal_err_runtime (m : String) (g : Game) :
    (PlayResult.err (.runtime m) g).isIllegal = false := rfl

/-- C1 counterexample: at a concrete start_of_turn state, `steal:0` played
by player 0 (target = actor) and, with player 1 dead, `steal:1` (dead
target) are both accepted — no IllegalAction is raised, and the state
changes (a captain claim is recorded and a challenge opens). -/
theorem target_self_or_dead_accepted_cex :
    gStart.state = .turn ⟨0, none⟩ ∧ playerToAct gStart = some 0 ∧
    (playAction idO gStart (.stealA 0)).isIllegal = false ∧
    (playAction idO gStart (.stealA 0)).game ≠ gStart ∧
    gDead.state = .turn ⟨0, none⟩ ∧ isAlive gDead 1 = false ∧
    (playAction idO gDead (.stealA 1)).isIllegal = false ∧
    (playAction idO gDead (.stealA 1)).game ≠ gDead := by decide

/-- C1 (amended): at start_of_turn the only validation of the target of a
targeted initial action is that its id is below num_players.  A steal at a
dead target or at the actor himself is not rejected (no IllegalAction);
only an out-of-range target raises IllegalAction, with the state
unchanged. -/
theorem target_check_only_range (O : Oracle) (g : Game) (tp t : Nat)
    (hstate : g.state = .turn ⟨tp, none⟩)
    (hcash : canAfford g tp 10 = false) :
    (t < g.num_players → (playAction O g (.stealA t)).isIllegal = false) ∧
    (g.num_players ≤ t →
      playAction O g (.stealA t) = .err (.illegal "Unknown target player") g) := by
  have hself := setTurn_self hstate
  unfold playAction
  rw [hstate]
  unfold turnPlayAction turnPlayInitial actInfo
  simp only
  constructor
  · intro hlt
    rw [postCheck_isIllegal]
    have hdec : decide (g.num_players ≤ t) = false := by
      simp [Nat.not_le_of_lt hlt]
    simp only [Option.map_some', Option.getD_some, hdec,
      if_neg Bool.false_ne_true]
    have hafford : canAffordAction g tp .steal = true := by
      simp [canAffordAction, canAfford, ActName.cost]
    rw [if_neg (by simp [hafford]), if_neg (by simp [hcash])]
    unfold buildInitialAction mkChallenge
    cases hnp : getNextPlayer g tp with
    | error e =>
      have := getNextPlayer_err g tp hnp
      subst this
      simp
    | ok nxt =>
      simp only
      rfl
  · intro hge
    have hdec : decide (g.num_players ≤ t) = true := by simp [hge]
    simp only [Option.map_some', Option.getD_some, hdec, if_pos rfl]
    simp [postCheck, hself]

theorem getPlayer_updatePlayer_self (g : Game) (pid : Nat) (f : Player → Player)
    (h : pid < g.players.length) :
    getPlayer (updatePlayer g pid f) pid = f (getPlayer g pid) := by
  simp [getPlayer, updatePlayer, List.getD, List.getElem?_set_self h]

theorem getPlayer_setTurn (g : Game) (t : TurnSt) (pid : Nat) :
    getPlayer (setTurn g t) pid = getPlayer g pid := by
  unfold setTurn
  cases g.state <;> rfl

theorem state_updatePlayer (g : Game) (pid : Nat) (f : Player → Player) :
    (updatePlayer g pid f).state = g.state := rfl

theorem players_length_updatePlayer (g : Game) (pid : Nat) (f : Player → Player) :
    (updatePlayer g pid f).players.length = g.players.length := by
  simp [updatePlayer]

/-- The public driver only re-wraps the Turn's result (the post-play
aliveness check can add a runtime fault but never changes the game). -/
theorem playAction_game_turn (O : Oracle) (g : Game) (t : TurnSt) (act : PAct)
    (h : g.state = .turn t) :
    (playAction O g act).game = (turnPlayAction O g t act).game := by
  unfold playAction
  rw [h]
  exact postCheck_game _

theorem playAction_isIllegal_turn (O : Oracle) (g : Game) (t : TurnSt) (act : PAct)
    (h : g.state = .turn t) :
    (playAction O g act).isIllegal = (turnPlayAction O g t act).isIllegal := by
  unfold playAction
  rw [h]
  exact postCheck_isIllegal _

theorem endTurn_players (g : Game) (cur : TurnSt) :
    (endTurn g cur).game.players = g.players := by
  unfold endTurn
  cases g.state with
  | gameOver w => rfl
  | turn t =>
    cases getNextPlayer g cur.player_id with
    | ok nxt => rfl
    | error e =>
      simp only [PlayResult.game]
      unfold setTurn
      split <;> rfl

theorem endTurn_isIllegal (g : Game) (cur : TurnSt) :
    (endTurn g cur).isIllegal = false := by
  unfold endTurn
  cases g.state with
  | gameOver w => rfl
  | turn t =>
    cases hnp : getNextPlayer g cur.player_id with
    | ok nxt => rfl
    | error e => rw [getNextPlayer_err g cur.player_id hnp]; rfl

/-- Witness for C1: an out-of-range target is rejected and the state kept. -/
theorem target_check_only_range_witness :
    gStart.num_players ≤ 5 ∧
    playAction idO gStart (.stealA 5) = .err (.illegal "Unknown target player") gStart :=
  ⟨by decide, (target_check_only_range idO gStart 0 5 rfl (by decide)).2 (by decide)⟩

/-- C3 counterexample: in a concrete choose-new-roles state whose legal
actions include the canonical `keep:assassin,duke`, the non-canonical
`keep:duke,assassin` is nevertheless accepted: no IllegalAction is raised
and the hand becomes duke, assassin. -/
theorem keep_unsorted_accepted_cex :
    (getLegalActions gChoose =
      .ok ["keep:ambassador,assassin", "keep:ambassador,contessa", "keep:ambassador,duke",
           "keep:assassin,contessa", "keep:assassin,duke", "keep:contessa,duke"]) ∧
    (PAct.keepA [.duke, .assassin]).str = "keep:duke,assassin" ∧
    "keep:duke,assassin" ∉ ["keep:ambassador,assassin", "keep:ambassador,contessa",
        "keep:ambassador,duke", "keep:assassin,contessa", "keep:assassin,duke",
        "keep:contessa,duke"] ∧
    (playAction idO gChoose (.keepA [.duke, .assassin])).isIllegal = false ∧
    (getPlayer (playAction idO gChoose (.keepA [.duke, .assassin])).game 0).hidden
      = [.duke, .assassin] :=
  ⟨rfl, by decide, by decide, by decide, by decide⟩

/-- C3 (amended): in the choose-new-roles sub-phase any keep whose role
list is drawable from the pool and has the right size is accepted no
matter in which order it is written: no IllegalAction is raised and the
player's hidden hand becomes the list exactly as written.  (Only the
canonically sorted encodings are enumerated by legal_actions.) -/
theorem keep_any_order_accepted (O : Oracle) (g : Game) (tp : Nat) (a : ActionSt)
    (rs drawn rest : List Role)
    (hstate : g.state = .turn ⟨tp, some a⟩)
    (hch : a.challenge = none) (hb : a.block = none) (hf : a.final_action = none)
    (hname : a.name = .exchange)
    (hd : a.drawn_roles = some drawn)
    (hpid : a.player_id < g.players.length)
    (hlen : rs.length = (getPlayer g a.player_id).hidden.length)
    (havail : playFinalAction.removeAll ((getPlayer g a.player_id).hidden ++ drawn) rs
      = some rest) :
    (playAction O g (.keepA rs)).isIllegal = false ∧
    (getPlayer (playAction O g (.keepA rs)).game a.player_id).hidden = rs := by
  rw [playAction_isIllegal_turn O g _ _ hstate, playAction_game_turn O g _ _ hstate]
  unfold turnPlayAction
  simp only
  unfold actionPlayAction
  rw [hch, hb, hf]
  unfold playFinalAction
  rw [hname]
  simp only
  rw [if_neg (by simp [getInfluence, hlen]), hd]
  simp only [getInfluence] at havail ⊢
  rw [havail]
  unfold replaceAllRoles
  rw [if_pos (by simpa [getInfluence] using hlen)]
  simp only
  have hgp : ∀ g' : Game, g'.players.length = g.players.length →
      (getPlayer g' a.player_id).hidden = rs →
      (endTurn g' ⟨tp, some a⟩).isIllegal = false ∧
      (getPlayer (endTurn g' ⟨tp, some a⟩).game a.player_id).hidden = rs := by
    intro g' hlen' hhid
    refine ⟨endTurn_isIllegal g' _, ?_⟩
    have := endTurn_players g' ⟨tp, some a⟩
    simp only [getPlayer] at hhid ⊢
    rw [this]
    exact hhid
  apply hgp
  · simp [traceExchange, replaceCards, players_length_updatePlayer, updatePlayer]
  · have h1 : (getPlayer (updatePlayer g a.player_id (fun p => { p with hidden := rs }))
        a.player_id).hidden = rs := by
      rw [getPlayer_updatePlayer_self g a.player_id _ hpid]
    have hlen1 : a.player_id <
        (updatePlayer g a.player_id (fun p => { p with hidden := rs })).players.length := by
      rw [players_length_updatePlayer]; exact hpid
    have h2 : (getPlayer (replaceCards O
        (updatePlayer g a.player_id (fun p => { p with hidden := rs })) rest)
        a.player_id).hidden = rs := h1
    have hlen2 : a.player_id < (replaceCards O
        (updatePlayer g a.player_id (fun p => { p with hidden := rs })) rest).players.length :=
      hlen1
    calc (getPlayer (traceExchange (replaceCards O
          (updatePlayer g a.player_id (fun p => { p with hidden := rs })) rest) a.player_id)
          a.player_id).hidden
        = (getPlayer (replaceCards O (updatePlayer g a.player_id
            (fun p => { p with hidden := rs })) rest) a.player_id).hidden := by
          unfold traceExchange
          rw [getPlayer_updatePlayer_self _ _ _ hlen2]
      _ = rs := h2

/-- Witness for C3 (amended) at the concrete choose-new-roles state. -/
theorem keep_any_order_accepted_witness :
    (playAction idO gChoose (.keepA [.duke, .assassin])).isIllegal = false ∧
    (getPlayer (playAction idO gChoose (.keepA [.duke, .assassin])).game
      (ActionSt.player_id { name := .exchange, player_id := 0, drawn_roles := some [.assassin, .ambassador] })).hidden = [.duke, .assassin] :=
  keep_any_order_accepted idO gChoose 0
    { name := .exchange, player_id := 0, drawn_roles := some [.assassin, .ambassador] }
    [.duke, .assassin] [.assassin, .ambassador] [.contessa, .ambassador]
    rfl rfl rfl rfl rfl rfl (by decide) (by decide) (by decide)

/-- An error produced inside the Turn propagates unchanged out of
Coup.play_action. -/
theorem playAction_eq_of_turn_err (O : Oracle) (g : Game) (t : TurnSt) (act : PAct)
    (e : Err) (g' : Game) (h : g.state = .turn t)
    (h2 : turnPlayAction O g t act = .err e g') :
    playAction O g act = .err e g' := by
  unfold playAction
  rw [h]
  simp only
  rw [h2]
  rfl

/-- C7 counterexample: with 10 credits at start_of_turn, the legal list is
exactly the coups at living opponents, yet the self-coup `coup:0` — which
is not in that list — is accepted rather than rejected with
IllegalAction. -/
theorem mandatory_coup_cex :
    canAfford gRich 0 10 = true ∧
    getLegalActions gRich = .ok ["coup:1", "coup:2", "coup:3"] ∧
    "coup:0" ∉ ["coup:1", "coup:2", "coup:3"] ∧
    (playAction idO gRich (.coupA 0)).isIllegal = false ∧
    (playAction idO gRich (.coupA 0)).game ≠ gRich :=
  ⟨by decide, rfl, by decide, by decide, by decide⟩

/-- C7 (amended): if the acting player has 10 or more credits at
start_of_turn then legal_actions is exactly the sorted list of coup:P over
living opponents P, and playing any initial action that is not a coup
raises IllegalAction with the state unchanged.  (A coup at any in-range
target, even dead or self, is accepted.) -/
theorem mandatory_coup_only (O : Oracle) (g : Game) (tp : Nat)
    (hstate : g.state = .turn ⟨tp, none⟩)
    (hcash : canAfford g tp 10 = true) :
    (getLegalActions g = .ok (sortStrings (((List.range g.num_players).filter
        (fun p => isAlive g p && p ≠ tp)).map (fun p => (PAct.coupA p).str)))) ∧
    (∀ s, s ∈ sortStrings (((List.range g.num_players).filter
        (fun p => isAlive g p && p ≠ tp)).map (fun p => (PAct.coupA p).str)) ↔
      ∃ p, p < g.num_players ∧ isAlive g p = true ∧ p ≠ tp ∧ s = (PAct.coupA p).str) ∧
    (∀ act name target, actInfo act = some (name, target) → name ≠ .coup →
      ∃ m, playAction O g act = .err (.illegal m) g) := by
  refine ⟨?_, ?_, ?_⟩
  · unfold getLegalActions
    rw [hstate]
    unfold turnLegal
    simp only
    rw [if_pos hcash]
  · intro s
    unfold sortStrings
    rw [(sortByLe_perm strLe _).mem_iff]
    simp only [List.mem_map, List.mem_filter, List.mem_range, Bool.and_eq_true,
      decide_eq_true_eq]
    constructor
    · rintro ⟨p, ⟨hp, ha, hne⟩, rfl⟩
      exact ⟨p, hp, ha, hne, rfl⟩
    · rintro ⟨p, hp, ha, hne, rfl⟩
      exact ⟨p, ⟨hp, ha, hne⟩, rfl⟩
  · intro act name target hinfo hname
    apply Exists.imp (fun m hm => playAction_eq_of_turn_err O g _ act (.illegal m) g hstate hm)
    unfold turnPlayAction
    simp only
    unfold turnPlayInitial
    rw [hinfo]
    simp only
    by_cases hrange : (Option.map (fun t => decide (g.num_players ≤ t)) target).getD false = true
    · exact ⟨"Unknown target player", by rw [if_pos hrange, setTurn_self hstate]⟩
    · rw [if_neg hrange]
      by_cases hafford : canAffordAction g tp name = true
      · refine ⟨"Players with 10 or more credits must coup", ?_⟩
        rw [if_neg (by simp [hafford]), if_pos ⟨hcash, hname⟩, setTurn_self hstate]
      · exact ⟨"Cannot afford action", by rw [if_pos (by simp [hafford]), setTurn_self hstate]⟩

/-- Witness for C7 (amended): at the concrete 10-credit state, tax is
rejected as IllegalAction with the state unchanged. -/
theorem mandatory_coup_only_witness :
    ∃ m, playAction idO gRich .taxA = .err (.illegal m) gRich :=
  (mandatory_coup_only idO gRich 0 (by decide) (by decide)).2.2 .taxA .tax none rfl (by decide)

theorem setTurn_players (g : Game) (t : TurnSt) : (setTurn g t).players = g.players := by
  unfold setTurn
  cases g.state <;> rfl

theorem doAction_players_assassinate (g : Game) (tp : Nat) (a : ActionSt)
    (hname : a.name = .assassinate) :
    (doAction g tp a).game.players = g.players := by
  unfold doAction
  rw [hname]
  cases a.target_player with
  | some tgt => simp [PlayResult.game, setTurn_players]
  | none => simp [PlayResult.game, setTurn_players]

theorem afterAccept_players_assassinate (g : Game) (tp : Nat) (a : ActionSt)
    (hname : a.name = .assassinate) :
    (afterAccept g tp a).game.players = g.players := by
  unfold afterAccept actionAccepted
  rw [hname]
  simp only
  cases hmb : mkBlock g a.player_id [.contessa] a.target_player with
  | error e => simp [PlayResult.game, setTurn_players]
  | ok b => simp [PlayResult.game, setTurn_players]

theorem deductCash_players_length (g : Game) (pid n : Nat) :
    (deductCash g pid n).1.players.length = g.players.length := by
  simp [deductCash, updatePlayer]

theorem deductCash_cash_self (g : Game) (pid n : Nat) (hpid : pid < g.players.length) :
    (getPlayer (deductCash g pid n).1 pid).cash
      = (getPlayer g pid).cash - min n (getPlayer g pid).cash := by
  simp [deductCash, getPlayer_updatePlayer_self g pid _ hpid]

/-- C6: in an assassinate turn the actor's cash drops by exactly 3 iff the
challenge phase concludes in the actor's favor: resolve_challenge(True)
always deducts 3 (whether the target is still alive or not, i.e. before
any block is heard), resolve_challenge(False) — a correct challenge —
leaves every player untouched, and the block resolution, successful or
not, never changes any player's cash, so the cost stays paid even when the
target blocks with Contessa. -/
theorem assassinate_cost_iff (g : Game) (tp : Nat) (a : ActionSt)
    (hname : a.name = .assassinate)
    (hpid : a.player_id < g.players.length)
    (hcash : 3 ≤ (getPlayer g a.player_id).cash) :
    (getPlayer (actionResolveChallenge g tp a true).game a.player_id).cash
        = (getPlayer g a.player_id).cash - 3 ∧
    (actionResolveChallenge g tp a false).game.players = g.players ∧
    (∀ flag, (actionResolveBlock g tp a flag).game.players = g.players) := by
  have hmin : min (ActName.cost a.name) (getPlayer g a.player_id).cash = 3 := by
    rw [hname]; exact Nat.min_eq_left hcash
  refine ⟨?_, ?_, ?_⟩
  · unfold actionResolveChallenge
    rw [if_pos rfl]
    simp only
    obtain ⟨nm, pid, tgto, ch, bl, fa, dr⟩ := a
    simp only at hpid hcash hname
    subst hname
    have hdeduct : (getPlayer (deductCash g pid (ActName.cost .assassinate)).1 pid).cash
        = (getPlayer g pid).cash - 3 := by
      rw [deductCash_cash_self g pid _ hpid]
      simp [ActName.cost, Nat.min_eq_left hcash]
    have hplayers : ∀ g2 : Game,
        g2.players = (deductCash g pid (ActName.cost .assassinate)).1.players →
        (getPlayer g2 pid).cash = (getPlayer g pid).cash - 3 := by
      intro g2 h2
      rw [getPlayer, h2, ← getPlayer, hdeduct]
    cases tgto with
    | some tgt =>
      simp only
      split
      · exact hplayers _ (afterAccept_players_assassinate _ tp _ rfl)
      · exact hplayers _ (endTurn_players _ _)
    | none =>
      simp only
      exact hplayers _ (afterAccept_players_assassinate _ tp _ rfl)
  · unfold actionResolveChallenge
    rw [if_neg (by simp)]
    exact endTurn_players g _
  · intro flag
    unfold actionResolveBlock
    cases flag with
    | false => rw [if_neg (by simp)]; exact endTurn_players g _
    | true =>
      rw [if_pos rfl]
      simp only
      obtain ⟨nm, pid, tgto, ch, bl, fa, dr⟩ := a
      simp only at hname
      subst hname
      cases tgto with
      | some tgt =>
        simp only
        split
        · exact doAction_players_assassinate g tp _ rfl
        · exact endTurn_players g _
      | none =>
        simp only
        exact doAction_players_assassinate g tp _ rfl

/-- Witness for C6 at a concrete assassinate action state. -/
theorem assassinate_cost_iff_witness :
    (getPlayer (actionResolveChallenge gRich 0 { name := .assassinate, player_id := 0, target_player := some 1 } true).game 0).cash = 10 - 3 ∧
    (actionResolveChallenge gRich 0 { name := .assassinate, player_id := 0, target_player := some 1 } false).game.players = gRich.players := by
  have h := assassinate_cost_iff gRich 0
    { name := .assassinate, player_id := 0, target_player := some 1 } rfl (by decide) (by decide)
  exact ⟨h.1, h.2.1⟩

/-- A two-player game mid-cascade: player 0's tax was wrongly challenged
by player 1; player 0 proved the duke (card swapped) and player 1, whose
single remaining influence is a captain, must now reveal it. -/
def cascadeChal : Challenge :=
  { challenged_player := 0, role := .duke, player_id := 1,
    responses := [(1, .challengeR)], reveal := some ⟨1, .incorrect_challenge⟩,
    challenge_correct := some false }

def gCascadeEnd : Game :=
  { num_players := 2,
    players := [⟨2, [.duke], [], [.claimEv .duke, .revealEv .duke]⟩,
                ⟨2, [.captain], [.ambassador], []⟩],
    deck := [.contessa],
    state := .turn ⟨0, some { name := .tax, player_id := 0, challenge := some cascadeChal }⟩ }

/-- The finished game that the final cascade reveal from `gCascadeEnd`
produces: player 1 is dead, player 0 has won and been paid his tax. -/
def gWon : Game :=
  { num_players := 2,
    players := [⟨5, [.duke], [], [.claimEv .duke, .revealEv .duke]⟩,
                ⟨2, [], [.ambassador, .captain], [.revealEv .captain]⟩],
    deck := [.contessa],
    state := .gameOver 0 }

/-- C9: once the state is GameOver it never leaves it — any further
play_action is a fatal fault that leaves the game unchanged (so the
winner never changes), end_turn creates no new Turn, and player_to_act is
None; moreover the resolution in flight when the fatal reveal happens
still runs to completion inside the same play call: in the concrete
mid-cascade state, the reveal that kills the challenger ends the game
with winner 0 AND still pays out the tax (cash 2 → 5) before returning. -/
theorem game_over_absorbing (O : Oracle) (g : Game) (w : Nat) (act : PAct) (cur : TurnSt)
    (hover : g.state = .gameOver w) :
    playAction O g act = .err (.runtime "AttributeError: GameOver.play_action") g ∧
    endTurn g cur = .ok g ∧
    playerToAct g = none ∧
    (playAction idO gCascadeEnd (.revealA .captain) = .ok gWon ∧
      gWon.state = .gameOver 0 ∧ (getPlayer gWon 0).cash = 5 ∧ isAlive gWon 1 = false) := by
  refine ⟨?_, ?_, ?_, ?_⟩
  · unfold playAction
    rw [hover]
  · unfold endTurn
    rw [hover]
  · unfold playerToAct
    rw [hover]
  · exact ⟨by decide, by decide, by decide, by decide⟩

/-- Witness for C9 at a concrete finished game. -/
theorem game_over_absorbing_witness :
    playAction idO { num_players := 2, players := [⟨5, [.duke], [], []⟩, ⟨2, [], [.captain, .ambassador], []⟩], deck := [.contessa], state := .gameOver 0 } .incomeA
      = .err (.runtime "AttributeError: GameOver.play_action")
        { num_players := 2, players := [⟨5, [.duke], [], []⟩, ⟨2, [], [.captain, .ambassador], []⟩], deck := [.contessa], state := .gameOver 0 } :=
  (game_over_absorbing idO _ 0 .incomeA ⟨0, none⟩ rfl).1

/-! ## Classification of errors: IllegalAction happens only on validation

The resolution chain that runs after a successfully validated action can
fail only with fatal (runtime) faults, never with IllegalAction.  These
lemmas make that precise, one per resolver function. -/

theorem dealCards_err (g : Game) (n : Nat) {e : Err} :
    dealCards g n = .error e → e = .runtime "pop from empty list" := by
  induction n generalizing g with
  | zero => intro h; exact absurd h (by simp [dealCards])
  | succ k ih =>
    intro h
    unfold dealCards at h
    split at h
    · exact (Except.error.inj h).symm
    · split at h
      · exact absurd h (by simp)
      · rename_i e2 heq
        cases Except.error.inj h
        exact ih _ heq

theorem revealRole_err (g : Game) (pid : Nat) (role : Role) {e : Err} :
    revealRole g pid role = .error e → e = .runtime "list.remove(x): x not in list" := by
  intro h
  unfold revealRole at h
  split at h
  · simp only at h
    split at h <;> exact absurd h (by simp)
  · exact (Except.error.inj h).symm

theorem replaceRole_err (O : Oracle) (g : Game) (pid : Nat) (role : Role) {e : Err} :
    replaceRole O g pid role = .error e →
    e = .runtime "list.remove(x): x not in list" ∨ e = .runtime "pop from empty list" := by
  intro h
  unfold replaceRole at h
  split at h
  · simp only at h
    split at h
    · exact absurd h (by simp)
    · rename_i e2 heq
      cases Except.error.inj h
      exact Or.inr (dealCards_err _ 1 heq)
  · exact Or.inl (Except.error.inj h).symm

theorem mkChallenge_err (g : Game) (challenged : Nat) (role : Role) {e : Err} :
    mkChallenge g challenged role = .error e →
    e = .runtime "Unexpected state: only one player left alive" := by
  unfold mkChallenge
  cases hnp : getNextPlayer g challenged with
  | error e' =>
    intro h
    exact (Except.error.inj h) ▸ getNextPlayer_err g challenged hnp
  | ok nxt => intro h; exact absurd h (by simp)

theorem mkBlock_err (g : Game) (actorPid : Nat) (roles : List Role) (blocker : Option Nat)
    {e : Err} : mkBlock g actorPid roles blocker = .error e →
    e = .runtime "Unexpected state: only one player left alive" := by
  unfold mkBlock
  cases blocker with
  | some b => intro h; exact absurd h (by simp)
  | none =>
    cases hnp : getNextPlayer g actorPid with
    | error e' =>
      intro h
      exact (Except.error.inj h) ▸ getNextPlayer_err g actorPid hnp
    | ok nxt => intro h; exact absurd h (by simp)

theorem doAction_isIllegal (g : Game) (tp : Nat) (a : ActionSt) :
    (doAction g tp a).isIllegal = false := by
  unfold doAction
  cases a.name <;> simp only
  case foreign_aid => exact endTurn_isIllegal _ _
  case tax => exact endTurn_isIllegal _ _
  case steal =>
    cases a.target_player with
    | some tgt => exact endTurn_isIllegal _ _
    | none => rfl
  case exchange =>
    cases a.drawn_roles with
    | some d => rfl
    | none =>
      cases hdc : dealCards g 2 with
      | ok p => cases p with | mk rs g2 => rfl
      | error e => rw [dealCards_err g 2 hdc]; rfl
  case assassinate =>
    cases a.target_player with
    | some tgt => rfl
    | none => rfl
  all_goals rfl

theorem afterAccept_isIllegal (g : Game) (tp : Nat) (a : ActionSt) :
    (afterAccept g tp a).isIllegal = false := by
  unfold afterAccept
  cases hacc : actionAccepted g a with
  | error e =>
    simp only
    suffices hr : e = .runtime "Unexpected state: only one player left alive" by
      rw [hr]; rfl
    unfold actionAccepted at hacc
    cases hn : a.name <;> rw [hn] at hacc <;> simp only at hacc
    case income => exact absurd hacc (by simp)
    case foreign_aid => exact absurd hacc (by simp)
    case tax => exact absurd hacc (by simp)
    case exchange => exact absurd hacc (by simp)
    case coup => exact absurd hacc (by simp)
    case steal =>
      cases hmb : mkBlock g a.player_id [.ambassador, .captain] a.target_player with
      | ok b => rw [hmb] at hacc; exact absurd hacc (by simp)
      | error e2 =>
        rw [hmb] at hacc
        simp only at hacc
        cases Except.error.inj hacc
        exact mkBlock_err _ _ _ _ hmb
    case assassinate =>
      cases hmb : mkBlock g a.player_id [.contessa] a.target_player with
      | ok b => rw [hmb] at hacc; exact absurd hacc (by simp)
      | error e2 =>
        rw [hmb] at hacc
        simp only at hacc
        cases Except.error.inj hacc
        exact mkBlock_err _ _ _ _ hmb
  | ok a' =>
    simp only
    cases a'.block with
    | none => exact doAction_isIllegal _ _ _
    | some b => rfl

theorem actionResolveChallenge_isIllegal (g : Game) (tp : Nat) (a : ActionSt)
    (allowed : Bool) : (actionResolveChallenge g tp a allowed).isIllegal = false := by
  obtain ⟨nm, pid, tgto, ch, bl, fa, dr⟩ := a
  unfold actionResolveChallenge
  cases allowed with
  | false => rw [if_neg (by simp)]; exact endTurn_isIllegal _ _
  | true =>
    rw [if_pos rfl]
    simp only
    cases tgto with
    | some tgt =>
      simp only
      split
      · exact afterAccept_isIllegal _ _ _
      · exact endTurn_isIllegal _ _
    | none => exact afterAccept_isIllegal _ _ _

theorem actionResolveBlock_isIllegal (g : Game) (tp : Nat) (a : ActionSt)
    (allowed : Bool) : (actionResolveBlock g tp a allowed).isIllegal = false := by
  obtain ⟨nm, pid, tgto, ch, bl, fa, dr⟩ := a
  unfold actionResolveBlock
  cases allowed with
  | false => rw [if_neg (by simp)]; exact endTurn_isIllegal _ _
  | true =>
    rw [if_pos rfl]
    simp only
    cases tgto with
    | some tgt =>
      simp only
      split
      · exact doAction_isIllegal _ _ _
      · exact endTurn_isIllegal _ _
    | none => exact doAction_isIllegal _ _ _

theorem parentResolveChal_isIllegal (g : Game) (tp : Nat) (a : ActionSt)
    (ctx : ChalCtx) (flag : Bool) : (parentResolveChal g tp a ctx flag).isIllegal = false := by
  unfold parentResolveChal
  cases ctx with
  | onAction => exact actionResolveChallenge_isIllegal _ _ _ _
  | onBlock b => exact actionResolveBlock_isIllegal _ _ _ _

theorem revealNextChallengerAux_isIllegal (g : Game) (tp : Nat) (a : ActionSt)
    (ctx : ChalCtx) (ch : Challenge) (fuel pid : Nat) :
    (revealNextChallengerAux g tp a ctx ch fuel pid).isIllegal = false := by
  induction fuel generalizing pid with
  | zero => rfl
  | succ k ih =>
    unfold revealNextChallengerAux
    cases hnp : getNextPlayer g pid with
    | error e => simp only; rw [getNextPlayer_err g pid hnp]; rfl
    | ok q =>
      simp only
      split
      · exact parentResolveChal_isIllegal _ _ _ _ _
      · cases ch.responses.lookup q with
        | none => rfl
        | some r => cases r with
          | challengeR => rfl
          | passR => exact ih q

theorem revealNextChallenger_isIllegal (g : Game) (tp : Nat) (a : ActionSt)
    (ctx : ChalCtx) (ch : Challenge) (pid : Nat) :
    (revealNextChallenger g tp a ctx ch pid).isIllegal = false :=
  revealNextChallengerAux_isIllegal g tp a ctx ch _ pid

theorem challengeAfterReveal_isIllegal (O : Oracle) (g : Game) (tp : Nat) (a : ActionSt)
    (ctx : ChalCtx) (ch : Challenge) (revealed : Role) :
    (challengeAfterReveal O g tp a ctx ch revealed).isIllegal = false := by
  obtain ⟨cp, rl, pi, rs, rvo, cco⟩ := ch
  unfold challengeAfterReveal
  cases cco with
  | none =>
    simp only
    split
    · cases hrr : revealRole g cp revealed with
      | error e => simp only; rw [revealRole_err _ _ _ hrr]; rfl
      | ok g2 => exact parentResolveChal_isIllegal _ _ _ _ _
    · cases hrr : replaceRole O g cp revealed with
      | error e =>
        simp only
        rcases replaceRole_err O _ _ _ hrr with h | h <;> rw [h] <;> rfl
      | ok g2 => exact revealNextChallenger_isIllegal _ _ _ _ _ _
  | some cc =>
    cases cc with
    | true => rfl
    | false =>
      simp only [Bool.false_eq_true, if_false]
      cases rvo with
      | none => rfl
      | some rv =>
        simp only
        cases hrr : revealRole g rv.player_id revealed with
        | error e => simp only; rw [revealRole_err _ _ _ hrr]; rfl
        | ok g2 => exact revealNextChallenger_isIllegal _ _ _ _ _ _

theorem actionAfterReveal_isIllegal (g : Game) (tp : Nat) (a : ActionSt) (revealed : Role) :
    (actionAfterReveal g tp a revealed).isIllegal = false := by
  unfold actionAfterReveal
  cases a.target_player with
  | none => rfl
  | some tgt =>
    simp only
    cases hrr : revealRole g tgt revealed with
    | error e => simp only; rw [revealRole_err _ _ _ hrr]; rfl
    | ok g2 => simp only; exact endTurn_isIllegal _ _

theorem executeBlock_isIllegal (O : Oracle) (g : Game) (tp : Nat) (a : ActionSt)
    (b : Block) : (executeBlock O g tp a b).isIllegal = false := by
  unfold executeBlock
  simp only
  split
  · exact actionResolveBlock_isIllegal _ _ _ _
  · split
    · rename_i pid r heq
      cases hmc : mkChallenge g pid r with
      | error e => simp only; rw [mkChallenge_err _ _ _ hmc]; rfl
      | ok p => cases p with | mk g2 ch => rfl
    · rfl
    · rfl

/-- If Challenge.play_action raises IllegalAction, the game it leaves
behind is the untouched input (the validations run before any mutation). -/
theorem challengePlayAction_illegal (O : Oracle) (g : Game) (tp : Nat) (a : ActionSt)
    (ctx : ChalCtx) (ch : Challenge) (act : PAct) {m : String} {g' : Game}
    (h : challengePlayAction O g tp a ctx ch act = .err (.illegal m) g') :
    g' = setTurn g ⟨tp, some (putChal a ctx (some ch))⟩ := by
  unfold challengePlayAction at h
  split at h
  · -- a reveal is pending
    split at h
    · -- a reveal action was played
      split at h
      · -- the player holds the role: the continuation never raises IllegalAction
        simp only at h
        have hni := congrArg PlayResult.isIllegal h
        rw [challengeAfterReveal_isIllegal] at hni
        exact absurd hni (by simp [PlayResult.isIllegal])
      · exact (PlayResult.err.inj h).2.symm
    · exact (PlayResult.err.inj h).2.symm
  · -- polling for pass/challenge
    simp only at h
    split at h
    · -- pass
      split at h
      · rename_i e hnp
        rw [getNextPlayer_err _ _ hnp] at h
        exact absurd (PlayResult.err.inj h).1 (by simp)
      · split at h
        · split at h
          · exact absurd h (by simp)
          · have hni := congrArg PlayResult.isIllegal h
            rw [parentResolveChal_isIllegal] at hni
            exact absurd hni (by simp [PlayResult.isIllegal])
        · exact absurd h (by simp)
    · -- challenge
      split at h
      · rename_i e hnp
        rw [getNextPlayer_err _ _ hnp] at h
        exact absurd (PlayResult.err.inj h).1 (by simp)
      · split at h
        · split at h
          · exact absurd h (by simp)
          · have hni := congrArg PlayResult.isIllegal h
            rw [parentResolveChal_isIllegal] at hni
            exact absurd hni (by simp [PlayResult.isIllegal])
        · exact absurd h (by simp)
    · -- anything else is rejected before any mutation
      exact (PlayResult.err.inj h).2.symm

theorem actionSt_eta_challenge {a : ActionSt} {ch : Challenge} (h : a.challenge = some ch) :
    { a with challenge := some ch } = a := by
  cases a; cases h; rfl

theorem actionSt_eta_block {a : ActionSt} {b : Block} (h : a.block = some b) :
    { a with block := some b } = a := by
  cases a; cases h; rfl

theorem block_eta {b : Block} {ch : Option Challenge} (h : b.challenge = ch) :
    { b with challenge := ch } = b := by
  cases b; cases h; rfl

theorem turnSt_eta {t : TurnSt} {x : Option ActionSt} (h : t.action = x) :
    (⟨t.player_id, x⟩ : TurnSt) = t := by
  cases t; cases h; rfl

theorem replaceAllRoles_err (g : Game) (pid : Nat) (roles : List Role) {e : Err} :
    replaceAllRoles g pid roles = .error e →
    e = .runtime "assert len(roles) == len(player.hidden)" := by
  unfold replaceAllRoles
  split
  · intro h; exact absurd h (by simp)
  · intro h; exact (Except.error.inj h).symm

theorem buildInitialAction_isIllegal (g : Game) (tp : Nat) (name : ActName)
    (target : Option Nat) : (buildInitialAction g tp name target).isIllegal = false := by
  unfold buildInitialAction
  cases name <;> simp only
  case income => exact endTurn_isIllegal _ _
  case foreign_aid =>
    cases hmb : mkBlock g tp [.duke] none with
    | error e => simp only; rw [mkBlock_err _ _ _ _ hmb]; rfl
    | ok b => rfl
  case tax =>
    cases hmc : mkChallenge g tp .duke with
    | error e => simp only; rw [mkChallenge_err _ _ _ hmc]; rfl
    | ok p => cases p with | mk g2 ch => rfl
  case exchange =>
    cases hmc : mkChallenge g tp .ambassador with
    | error e => simp only; rw [mkChallenge_err _ _ _ hmc]; rfl
    | ok p => cases p with | mk g2 ch => rfl
  case steal =>
    cases hmc : mkChallenge g tp .captain with
    | error e => simp only; rw [mkChallenge_err _ _ _ hmc]; rfl
    | ok p => cases p with | mk g2 ch => rfl
  case assassinate =>
    cases hmc : mkChallenge g tp .assassin with
    | error e => simp only; rw [mkChallenge_err _ _ _ hmc]; rfl
    | ok p => cases p with | mk g2 ch => rfl
  case coup =>
    cases target with
    | some tgt => rfl
    | none => rfl

theorem blockPlayAction_illegal (O : Oracle) (g : Game) (tp : Nat) (a : ActionSt)
    (b : Block) (act : PAct) {m : String} {g' : Game}
    (h : blockPlayAction O g tp a b act = .err (.illegal m) g') :
    g' = setTurn g ⟨tp, some { a with block := some b }⟩ := by
  unfold blockPlayAction at h
  split at h
  · rename_i ch hch
    have := challengePlayAction_illegal O g tp a (.onBlock b) ch act h
    rw [this]
    simp only [putChal]
    rw [block_eta hch]
  · split at h
    · exact (PlayResult.err.inj h).2.symm
    · simp only at h
      split at h
      · have hni := congrArg PlayResult.isIllegal h
        rw [executeBlock_isIllegal] at hni
        exact absurd hni (by simp [PlayResult.isIllegal])
      · split at h
        · rename_i e hnp
          rw [getNextPlayer_err _ _ hnp] at h
          exact absurd (PlayResult.err.inj h).1 (by simp)
        · split at h
          · have hni := congrArg PlayResult.isIllegal h
            rw [executeBlock_isIllegal] at hni
            exact absurd hni (by simp [PlayResult.isIllegal])
          · exact absurd h (by simp)

theorem playFinalAction_illegal (O : Oracle) (g : Game) (tp : Nat) (a : ActionSt)
    (act : PAct) {m : String} {g' : Game}
    (h : playFinalAction O g tp a act = .err (.illegal m) g') :
    g' = setTurn g ⟨tp, some a⟩ := by
  unfold playFinalAction at h
  split at h
  · split at h
    · simp only at h
      split at h
      · exact (PlayResult.err.inj h).2.symm
      · split at h
        · exact absurd (PlayResult.err.inj h).1 (by simp)
        · split at h
          · exact (PlayResult.err.inj h).2.symm
          · split at h
            · rename_i e hra
              rw [replaceAllRoles_err _ _ _ hra] at h
              exact absurd (PlayResult.err.inj h).1 (by simp)
            · have hni := congrArg PlayResult.isIllegal h
              rw [endTurn_isIllegal] at hni
              exact absurd hni (by simp [PlayResult.isIllegal])
    · exact (PlayResult.err.inj h).2.symm
  · exact absurd (PlayResult.err.inj h).1 (by simp)

theorem actionPlayAction_illegal (O : Oracle) (g : Game) (tp : Nat) (a : ActionSt)
    (act : PAct) {m : String} {g' : Game}
    (h : actionPlayAction O g tp a act = .err (.illegal m) g') :
    g' = setTurn g ⟨tp, some a⟩ := by
  unfold actionPlayAction at h
  split at h
  · rename_i ch hch
    have := challengePlayAction_illegal O g tp a .onAction ch act h
    rw [this]
    simp only [putChal]
    rw [actionSt_eta_challenge hch]
  · split at h
    · rename_i b hb
      have := blockPlayAction_illegal O g tp a b act h
      rw [this, actionSt_eta_block hb]
    · split at h
      · split at h
        · split at h
          · simp only at h
            have hni := congrArg PlayResult.isIllegal h
            rw [actionAfterReveal_isIllegal] at hni
            exact absurd hni (by simp [PlayResult.isIllegal])
          · exact (PlayResult.err.inj h).2.symm
        · exact (PlayResult.err.inj h).2.symm
      · exact playFinalAction_illegal O g tp a act h

theorem turnPlayInitial_illegal (g : Game) (tp : Nat) (act : PAct) {m : String} {g' : Game}
    (h : turnPlayInitial g tp act = .err (.illegal m) g') :
    g' = setTurn g ⟨tp, none⟩ := by
  unfold turnPlayInitial at h
  split at h
  · exact (PlayResult.err.inj h).2.symm
  · split at h
    · exact (PlayResult.err.inj h).2.symm
    · split at h
      · exact (PlayResult.err.inj h).2.symm
      · split at h
        · exact (PlayResult.err.inj h).2.symm
        · have hni := congrArg PlayResult.isIllegal h
          rw [buildInitialAction_isIllegal] at hni
          exact absurd hni (by simp [PlayResult.isIllegal])

/-- C8: whenever play_action raises IllegalAction, the whole game state —
deck, every player's cash, hidden, revealed and trace, and the turn and
resolver tree — is exactly what it was before the call. -/
theorem illegal_leaves_game_unchanged (O : Oracle) (g : Game) (act : PAct)
    (m : String) (g' : Game)
    (h : playAction O g act = .err (.illegal m) g') : g' = g := by
  unfold playAction at h
  cases hs : g.state with
  | gameOver w =>
    rw [hs] at h
    exact absurd (PlayResult.err.inj h).1 (by simp)
  | turn t =>
    rw [hs] at h
    simp only at h
    cases ht : turnPlayAction O g t act with
    | ok g2 =>
      rw [ht] at h
      have hni := congrArg PlayResult.isIllegal h
      rw [postCheck_isIllegal] at hni
      exact absurd hni (by simp [PlayResult.isIllegal])
    | err e g2 =>
      rw [ht] at h
      obtain ⟨he, hg⟩ := PlayResult.err.inj (show PlayResult.err e g2 = PlayResult.err (Err.illegal m) g' from h)
      subst he
      subst hg
      unfold turnPlayAction at ht
      cases hta : t.action with
      | some a =>
        rw [hta] at ht
        have := actionPlayAction_illegal O g t.player_id a act ht
        rw [this, turnSt_eta hta, setTurn_self hs]
      | none =>
        rw [hta] at ht
        have := turnPlayInitial_illegal g t.player_id act ht
        rw [this, turnSt_eta hta, setTurn_self hs]

/-- Witness for C8: a malformed action at a concrete state is rejected
with the state unchanged. -/
theorem illegal_leaves_game_unchanged_witness :
    (playAction idO gStart .otherA).game = gStart := by
  have h : playAction idO gStart .otherA
      = .err (.illegal "Unknown action") (playAction idO gStart .otherA).game := by decide
  rw [illegal_leaves_game_unchanged idO gStart .otherA "Unknown action"
    (playAction idO gStart .otherA).game h]

/-! ## Card conservation

Every successful play keeps the 15 cards of the deck accounted for, as
long as the game is not over: they are in the deck, in hands, revealed, or
drawn by an in-flight exchange.  The lemmas below track the count through
each resolver. -/

/-- In the source an Action has at most one active sub-resolver at a
time: a pending challenge, a pending block, a forced final reveal, or
(for exchange) the drawn cards of the choose-new-roles sub-phase.  At
least three of the four attributes are always `None`. -/
def ActWF (a : ActionSt) : Prop :=
  (a.challenge = none ∧ a.block = none ∧ a.final_action = none) ∨
  (a.challenge = none ∧ a.block = none ∧ a.drawn_roles = none) ∨
  (a.challenge = none ∧ a.final_action = none ∧ a.drawn_roles = none) ∨
  (a.block = none ∧ a.final_action = none ∧ a.drawn_roles = none)

/-- Well-formedness of the whole turn tree. -/
def TreeWF : GState → Prop
  | .turn t =>
    match t.action with
    | some a => ActWF a
    | none => True
  | .gameOver _ => True

theorem actWF_of_challenge {a : ActionSt} {ch : Challenge} (h : ActWF a)
    (hc : a.challenge = some ch) :
    a.block = none ∧ a.final_action = none ∧ a.drawn_roles = none := by
  rcases h with ⟨h1, _⟩ | ⟨h1, _⟩ | ⟨h1, _⟩ | h <;>
    first
      | exact h
      | (rw [hc] at h1; exact absurd h1 (by simp))

theorem actWF_of_block {a : ActionSt} {b : Block} (h : ActWF a)
    (hb : a.block = some b) :
    a.challenge = none ∧ a.final_action = none ∧ a.drawn_roles = none := by
  rcases h with ⟨_, h1, _⟩ | ⟨_, h1, _⟩ | h | ⟨h1, _⟩ <;>
    first
      | exact h
      | (rw [hb] at h1; exact absurd h1 (by simp))

theorem actWF_of_final {a : ActionSt} {rv : Reveal} (h : ActWF a)
    (hf : a.final_action = some rv) : a.drawn_roles = none := by
  rcases h with ⟨_, _, h1⟩ | ⟨_, _, h1⟩ | ⟨_, h1, _⟩ | ⟨_, h1, _⟩ <;>
    first
      | exact h1
      | (rw [hf] at h1; exact absurd h1 (by simp))

/-- The conservation-and-wellformedness contract of a resolver result:
if it succeeds and the game is not over, all cards sum to `x`, and the
resulting tree is well-formed. -/
def ConsWF (x : Nat) (r : PlayResult) : Prop :=
  ∀ g', r = .ok g' → (isGameOver g' = false → totalCards g' = x) ∧ TreeWF g'.state

theorem consWF_err (x : Nat) (e : Err) (g : Game) : ConsWF x (.err e g) := by
  intro g' h
  exact absurd h (by simp)

theorem mapSum_set (w : Player → Nat) : ∀ (l : List Player) (i : Nat) (x : Player),
    w x = w (l.getD i defaultPlayer) → ((l.set i x).map w).sum = (l.map w).sum
  | [], i, x, h => by simp
  | p :: ps, 0, x, h => by
    simp only [List.getD_cons_zero] at h
    simp [List.set, h]
  | p :: ps, i+1, x, h => by
    simp only [List.set, List.map_cons, List.sum_cons]
    exact congrArg (w p + ·) (mapSum_set w ps i x (by simpa using h))

theorem cardCount_updatePlayer (g : Game) (pid : Nat) (f : Player → Player)
    (h : (f (getPlayer g pid)).hidden.length + (f (getPlayer g pid)).revealed.length
      = (getPlayer g pid).hidden.length + (getPlayer g pid).revealed.length) :
    cardCount (updatePlayer g pid f) = cardCount g := by
  unfold cardCount updatePlayer
  simp only
  rw [mapSum_set _ g.players pid (f (getPlayer g pid)) (by simpa [getPlayer] using h)]

theorem cardCount_addCash (g : Game) (pid n : Nat) :
    cardCount (addCash g pid n) = cardCount g :=
  cardCount_updatePlayer _ _ _ rfl

theorem cardCount_deductCash (g : Game) (pid n : Nat) :
    cardCount (deductCash g pid n).1 = cardCount g :=
  cardCount_updatePlayer _ _ _ rfl

theorem cardCount_traceClaim (g : Game) (pid : Nat) (r : Role) :
    cardCount (traceClaim g pid r) = cardCount g :=
  cardCount_updatePlayer _ _ _ rfl

theorem cardCount_traceReveal (g : Game) (pid : Nat) (r : Role) :
    cardCount (traceReveal g pid r) = cardCount g :=
  cardCount_updatePlayer _ _ _ rfl

theorem cardCount_traceLostChallenge (g : Game) (pid : Nat) (r : Role) :
    cardCount (traceLostChallenge g pid r) = cardCount g :=
  cardCount_updatePlayer _ _ _ rfl

theorem cardCount_traceExchange (g : Game) (pid : Nat) :
    cardCount (traceExchange g pid) = cardCount g :=
  cardCount_updatePlayer _ _ _ rfl

theorem state_addCash (g : Game) (pid n : Nat) : (addCash g pid n).state = g.state := rfl

theorem state_deductCash (g : Game) (pid n : Nat) :
    (deductCash g pid n).1.state = g.state := rfl

theorem cardCount_replaceCards (O : Oracle) (hO : O.LengthPres) (g : Game)
    (cards : List Role) :
    cardCount (replaceCards O g cards) = cardCount g + cards.length := by
  unfold cardCount replaceCards
  simp only
  rw [hO]
  simp [List.length_append]
  omega

theorem dealCards_spec (g : Game) (n : Nat) (rs : List Role) (g' : Game) :
    dealCards g n = .ok (rs, g') →
    g'.deck.length + rs.length = g.deck.length ∧ rs.length = n ∧
    g'.players = g.players ∧ g'.state = g.state ∧ g'.num_players = g.num_players := by
  induction n generalizing g rs with
  | zero =>
    intro h
    unfold dealCards at h
    obtain ⟨h1, h2⟩ := Prod.mk.injEq _ _ _ _ ▸ Except.ok.inj h
    subst h1; subst h2
    simp
  | succ k ih =>
    intro h
    unfold dealCards at h
    split at h
    · exact absurd h (by simp)
    · rename_i r hlast
      split at h
      · rename_i p rs2 g2 heq
        obtain ⟨h1, h2⟩ := Prod.mk.injEq _ _ _ _ ▸ Except.ok.inj h
        subst h1; subst h2
        obtain ⟨hd, hn, hp, hs, hnp⟩ := ih _ _ heq
        have hne : g.deck ≠ [] := by
          intro hnil
          rw [hnil] at hlast
          simp at hlast
        have hlen : g.deck.dropLast.length = g.deck.length - 1 := List.length_dropLast _
        have hpos : 0 < g.deck.length := List.length_pos.mpr hne
        refine ⟨?_, by simp [hn], hp, hs, hnp⟩
        simp only [hlen] at hd
        simp only [List.length_cons]
        omega
      · exact absurd h (by simp)

theorem cardCount_state_set (g : Game) (s : GState) :
    cardCount { g with state := s } = cardCount g := rfl

theorem revealRole_spec (g : Game) (pid : Nat) (role : Role) (g' : Game)
    (h : revealRole g pid role = .ok g') :
    cardCount g' = cardCount g ∧ g'.deck = g.deck ∧
    (g'.state = g.state ∨ ∃ w, g'.state = .gameOver w) := by
  unfold revealRole at h
  split at h
  · rename_i hmem
    simp only at h
    have hcc : cardCount (updatePlayer g pid (fun p =>
        { p with hidden := p.hidden.erase role, revealed := p.revealed ++ [role] }))
        = cardCount g := by
      apply cardCount_updatePlayer
      simp only [List.length_append, List.length_cons, List.length_nil]
      have := List.length_erase_of_mem (List.mem_of_elem_eq_true hmem)
      have hpos : 0 < (getPlayer g pid).hidden.length :=
        List.length_pos.mpr (List.ne_nil_of_mem (List.mem_of_elem_eq_true hmem))
      omega
    split at h
    · cases Except.ok.inj h
      exact ⟨hcc, rfl, Or.inr ⟨_, rfl⟩⟩
    · cases Except.ok.inj h
      exact ⟨hcc, rfl, Or.inl rfl⟩
  · exact absurd h (by simp)

theorem lt_length_of_hidden_mem {g : Game} {pid : Nat} {role : Role}
    (hmem : (getPlayer g pid).hidden.contains role = true) : pid < g.players.length := by
  by_contra hge
  rw [getPlayer, List.getD_eq_default _ _ (Nat.le_of_not_lt hge)] at hmem
  simp [defaultPlayer] at hmem

theorem mapSum_set_add (w : Player → Nat) : ∀ (l : List Player) (i : Nat) (x : Player),
    i < l.length →
    ((l.set i x).map w).sum + w (l.getD i defaultPlayer) = (l.map w).sum + w x
  | [], i, x, hi => by simp at hi
  | p :: ps, 0, x, _ => by
    simp only [List.set, List.map_cons, List.sum_cons, List.getD_cons_zero]
    omega
  | p :: ps, i+1, x, hi => by
    simp only [List.set, List.map_cons, List.sum_cons, List.getD_cons_succ]
    have := mapSum_set_add w ps i x (by simpa using hi)
    omega

theorem cardCount_updatePlayer_add (g : Game) (pid : Nat) (f : Player → Player)
    (hpid : pid < g.players.length) :
    cardCount (updatePlayer g pid f)
      + ((getPlayer g pid).hidden.length + (getPlayer g pid).revealed.length)
      = cardCount g
      + ((f (getPlayer g pid)).hidden.length + (f (getPlayer g pid)).revealed.length) := by
  unfold cardCount updatePlayer
  simp only
  have := mapSum_set_add (fun p => p.hidden.length + p.revealed.length)
    g.players pid (f (getPlayer g pid)) hpid
  simp only [getPlayer] at this ⊢
  omega

theorem replaceRole_spec (O : Oracle) (hO : O.LengthPres) (g : Game) (pid : Nat)
    (role : Role) (g' : Game) (h : replaceRole O g pid role = .ok g') :
    cardCount g' = cardCount g ∧ g'.state = g.state := by
  unfold replaceRole at h
  split at h
  · rename_i hmem
    have hpid := lt_length_of_hidden_mem hmem
    simp only at h
    split at h
    · rename_i rs g3 heq
      cases Except.ok.inj h
      obtain ⟨hd, hn, hp, hs, hnp⟩ := dealCards_spec _ _ _ _ heq
      have hH : 0 < (getPlayer g pid).hidden.length :=
        List.length_pos.mpr (List.ne_nil_of_mem (List.mem_of_elem_eq_true hmem))
      have herase := List.length_erase_of_mem (List.mem_of_elem_eq_true hmem)
      have h1 := cardCount_updatePlayer_add g pid
        (fun p => { p with hidden := p.hidden.erase role }) hpid
      simp only at h1
      rw [herase] at h1
      have h2 := cardCount_replaceCards O hO
        (updatePlayer g pid (fun p => { p with hidden := p.hidden.erase role })) [role]
      simp only [List.length_cons, List.length_nil] at h2
      have hpid3 : pid < g3.players.length := by
        rw [hp]
        show pid < (updatePlayer g pid (fun p => { p with hidden := p.hidden.erase role })).players.length
        rw [players_length_updatePlayer]
        exact hpid
      have h4 := cardCount_updatePlayer_add g3 pid
        (fun p => { p with hidden := p.hidden ++ rs }) hpid3
      simp only [List.length_append] at h4
      have h3 : cardCount g3 + rs.length = cardCount (replaceCards O
          (updatePlayer g pid (fun p => { p with hidden := p.hidden.erase role })) [role]) := by
        unfold cardCount
        rw [hp]
        omega
      constructor
      · have hstateg3 := hs
        omega
      · have : (updatePlayer g3 pid (fun p => { p with hidden := p.hidden ++ rs })).state
            = g3.state := rfl
        rw [this, hs]
        rfl
    · exact absurd h (by simp)
  · exact absurd h (by simp)

theorem state_traceClaim (g : Game) (pid : Nat) (r : Role) :
    (traceClaim g pid r).state = g.state := rfl

theorem state_traceReveal (g : Game) (pid : Nat) (r : Role) :
    (traceReveal g pid r).state = g.state := rfl

theorem state_traceLostChallenge (g : Game) (pid : Nat) (r : Role) :
    (traceLostChallenge g pid r).state = g.state := rfl

theorem state_traceExchange (g : Game) (pid : Nat) :
    (traceExchange g pid).state = g.state := rfl

theorem cardCount_replaceAllRoles (g : Game) (pid : Nat) (roles : List Role)
    (g' : Game) (h : replaceAllRoles g pid roles = .ok g') :
    cardCount g' = cardCount g ∧ g'.state = g.state := by
  unfold replaceAllRoles at h
  split at h
  · rename_i hlen
    cases Except.ok.inj h
    exact ⟨cardCount_updatePlayer _ _ _ (by simp [hlen]), rfl⟩
  · exact absurd h (by simp)

theorem totalCards_set_turn (g : Game) (t : TurnSt) :
    totalCards { g with state := .turn t } = cardCount g + drawnOfTurn t := rfl

theorem totalCards_of_turn (g : Game) (t : TurnSt) (h : g.state = .turn t) :
    totalCards g = cardCount g + drawnOfTurn t := by
  unfold totalCards drawnCount
  rw [h]

/-- `end_turn` drops the resolved Turn: conservation needs only the bare
card count of the game it receives. -/
theorem endTurn_consWF (g : Game) (cur : TurnSt) (x : Nat)
    (hcc : cardCount g = x) : ConsWF x (endTurn g cur) := by
  intro g' h
  unfold endTurn at h
  cases hgs : g.state with
  | gameOver w =>
    rw [hgs] at h
    cases PlayResult.ok.inj h
    refine ⟨fun hfalse => ?_, ?_⟩
    · rw [isGameOver, hgs] at hfalse
      exact absurd hfalse (by simp)
    · rw [hgs]
      trivial
  | turn t0 =>
    rw [hgs] at h
    cases hnp : getNextPlayer g cur.player_id with
    | ok nxt =>
      rw [hnp] at h
      cases PlayResult.ok.inj h
      refine ⟨fun _ => ?_, trivial⟩
      rw [totalCards_set_turn]
      simp [drawnOfTurn, hcc]
    | error e =>
      rw [hnp] at h
      exact absurd h (by simp)

/-- Installing a well-formed tree over an unchanged game conserves. -/
theorem consWF_ok_setTurn (g : Game) (t : TurnSt) (x : Nat)
    (hcc : cardCount g + drawnOfTurn t = x) (hwf : TreeWF (.turn t)) :
    ConsWF x (.ok (setTurn g t)) := by
  intro g' h
  cases PlayResult.ok.inj h
  unfold setTurn
  cases hgs : g.state with
  | gameOver w =>
    refine ⟨fun hfalse => ?_, ?_⟩
    · rw [isGameOver, hgs] at hfalse
      exact absurd hfalse (by simp)
    · rw [hgs]
      trivial
  | turn t0 =>
    refine ⟨fun _ => ?_, hwf⟩
    rw [totalCards_set_turn]
    exact hcc

/-- `do_action` conserves when the action is fully quiescent (all its
sub-resolvers resolved and no cards drawn yet). -/
theorem doAction_consWF (g : Game) (tp : Nat) (a : ActionSt) (x : Nat)
    (hcc : cardCount g = x) (hch : a.challenge = none) (hbl : a.block = none)
    (hfa : a.final_action = none) (hdr : a.drawn_roles = none) :
    ConsWF x (doAction g tp a) := by
  unfold doAction
  cases hn : a.name
  case income => exact consWF_err _ _ _
  case coup => exact consWF_err _ _ _
  case foreign_aid => exact endTurn_consWF _ _ _ (by rw [cardCount_addCash]; exact hcc)
  case tax => exact endTurn_consWF _ _ _ (by rw [cardCount_addCash]; exact hcc)
  case steal =>
    cases ht : a.target_player with
    | none => exact consWF_err _ _ _
    | some tgt =>
      have h1 : cardCount (addCash (deductCash g tgt 2).1 a.player_id
          (deductCash g tgt 2).2) = x := by
        rw [cardCount_addCash, cardCount_deductCash]
        exact hcc
      exact endTurn_consWF _ _ _ h1
  case exchange =>
    rw [hdr]
    cases hd : dealCards g 2 with
    | error e => exact consWF_err _ _ _
    | ok p =>
      obtain ⟨rs, g2⟩ := p
      obtain ⟨hdk, hn2, hp, hs, hnp⟩ := dealCards_spec _ _ _ _ hd
      apply consWF_ok_setTurn
      · show cardCount g2 + rs.length = x
        unfold cardCount at hcc ⊢
        rw [hp]
        omega
      · exact Or.inl ⟨hch, hbl, hfa⟩
  case assassinate =>
    cases ht : a.target_player with
    | none => exact consWF_err _ _ _
    | some tgt =>
      apply consWF_ok_setTurn
      · show cardCount g + (a.drawn_roles.getD []).length = x
        rw [hdr]
        simpa using hcc
      · exact Or.inr (Or.inl ⟨hch, hbl, hdr⟩)

theorem actionAccepted_spec (g : Game) (a a' : ActionSt)
    (h : actionAccepted g a = .ok a') :
    a' = a ∨ ∃ b, a' = { a with block := some b } := by
  unfold actionAccepted at h
  cases hn : a.name <;> rw [hn] at h
  case steal =>
    cases hm : mkBlock g a.player_id [.ambassador, .captain] a.target_player with
    | error e =>
      rw [hm] at h
      exact absurd h (by simp)
    | ok b =>
      rw [hm] at h
      cases Except.ok.inj h
      exact Or.inr ⟨b, rfl⟩
  case assassinate =>
    cases hm : mkBlock g a.player_id [.contessa] a.target_player with
    | error e =>
      rw [hm] at h
      exact absurd h (by simp)
    | ok b =>
      rw [hm] at h
      cases Except.ok.inj h
      exact Or.inr ⟨b, rfl⟩
  all_goals
    cases Except.ok.inj h
    exact Or.inl rfl

theorem afterAccept_consWF (g : Game) (tp : Nat) (a : ActionSt) (x : Nat)
    (hcc : cardCount g = x) (hch : a.challenge = none) (hbl : a.block = none)
    (hfa : a.final_action = none) (hdr : a.drawn_roles = none) :
    ConsWF x (afterAccept g tp a) := by
  unfold afterAccept
  cases hA : actionAccepted g a with
  | error e => exact consWF_err _ _ _
  | ok a1 =>
    rcases actionAccepted_spec g a a1 hA with rfl | ⟨b, rfl⟩
    · obtain ⟨nm, pid, tgt, ch, bl, fa, dr⟩ := a1
      simp only at hch hbl hfa hdr
      subst hch; subst hbl; subst hfa; subst hdr
      show ConsWF x (doAction g tp ⟨nm, pid, tgt, none, none, none, none⟩)
      exact doAction_consWF g tp _ x hcc rfl rfl rfl rfl
    · show ConsWF x (.ok (setTurn g ⟨tp, some { a with block := some b }⟩))
      apply consWF_ok_setTurn
      · show cardCount g + (a.drawn_roles.getD []).length = x
        rw [hdr]
        simpa using hcc
      · exact Or.inr (Or.inr (Or.inl ⟨hch, hfa, hdr⟩))

theorem actionResolveChallenge_consWF (g : Game) (tp : Nat) (a0 : ActionSt)
    (allowed : Bool) (x : Nat) (hcc : cardCount g = x) (hbl : a0.block = none)
    (hfa : a0.final_action = none) (hdr : a0.drawn_roles = none) :
    ConsWF x (actionResolveChallenge g tp a0 allowed) := by
  obtain ⟨nm, pid, tgt, ch, bl, fa, dr⟩ := a0
  simp only at hbl hfa hdr
  subst hbl; subst hfa; subst hdr
  unfold actionResolveChallenge
  cases allowed with
  | false =>
    exact endTurn_consWF _ _ _ hcc
  | true =>
    simp only
    cases tgt with
    | none =>
      exact afterAccept_consWF _ _ _ _ (by rw [cardCount_deductCash]; exact hcc)
        rfl rfl rfl rfl
    | some t =>
      cases hAl : isAlive (deductCash g pid nm.cost).1 t with
      | true =>
        simp only [hAl]
        exact afterAccept_consWF _ _ _ _ (by rw [cardCount_deductCash]; exact hcc)
          rfl rfl rfl rfl
      | false =>
        simp only [hAl]
        exact endTurn_consWF _ _ _ (by rw [cardCount_deductCash]; exact hcc)

theorem actionResolveBlock_consWF (g : Game) (tp : Nat) (a0 : ActionSt)
    (allowed : Bool) (x : Nat) (hcc : cardCount g = x) (hch : a0.challenge = none)
    (hfa : a0.final_action = none) (hdr : a0.drawn_roles = none) :
    ConsWF x (actionResolveBlock g tp a0 allowed) := by
  obtain ⟨nm, pid, tgt, ch, bl, fa, dr⟩ := a0
  simp only at hch hfa hdr
  subst hch; subst hfa; subst hdr
  unfold actionResolveBlock
  cases allowed with
  | false =>
    exact endTurn_consWF _ _ _ hcc
  | true =>
    simp only
    cases tgt with
    | none => exact doAction_consWF _ _ _ _ hcc rfl rfl rfl rfl
    | some t =>
      cases hAl : isAlive g t with
      | true =>
        simp only [hAl]
        exact doAction_consWF _ _ _ _ hcc rfl rfl rfl rfl
      | false =>
        simp only [hAl]
        exact endTurn_consWF _ _ _ hcc

/-- What the caller of a challenge continuation knows about its action:
the sub-resolver slot this very challenge occupies is the only active one. -/
def CtxWF (a : ActionSt) : ChalCtx → Prop
  | .onAction => a.block = none ∧ a.final_action = none ∧ a.drawn_roles = none
  | .onBlock _ => a.challenge = none ∧ a.final_action = none ∧ a.drawn_roles = none

theorem parentResolveChal_consWF (g : Game) (tp : Nat) (a : ActionSt)
    (ctx : ChalCtx) (flag : Bool) (x : Nat) (hcc : cardCount g = x)
    (hwf : CtxWF a ctx) : ConsWF x (parentResolveChal g tp a ctx flag) := by
  cases ctx with
  | onAction =>
    obtain ⟨h1, h2, h3⟩ := hwf
    exact actionResolveChallenge_consWF g tp a flag x hcc h1 h2 h3
  | onBlock b =>
    obtain ⟨h1, h2, h3⟩ := hwf
    exact actionResolveBlock_consWF g tp a (!flag) x hcc h1 h2 h3

theorem actWF_putChal (a : ActionSt) (ctx : ChalCtx) (ch : Option Challenge)
    (hwf : CtxWF a ctx) : ActWF (putChal a ctx ch) := by
  cases ctx with
  | onAction => exact Or.inr (Or.inr (Or.inr hwf))
  | onBlock b =>
    obtain ⟨h1, h2, h3⟩ := hwf
    exact Or.inr (Or.inr (Or.inl ⟨h1, h2, h3⟩))

theorem consWF_ok_setTurn_putChal (g : Game) (tp : Nat) (a : ActionSt)
    (ctx : ChalCtx) (ch : Option Challenge) (x : Nat) (hcc : cardCount g = x)
    (hwf : CtxWF a ctx) :
    ConsWF x (.ok (setTurn g ⟨tp, some (putChal a ctx ch)⟩)) := by
  apply consWF_ok_setTurn
  · cases ctx with
    | onAction =>
      show cardCount g + (a.drawn_roles.getD []).length = x
      rw [hwf.2.2]
      simpa using hcc
    | onBlock b =>
      show cardCount g + (a.drawn_roles.getD []).length = x
      rw [hwf.2.2]
      simpa using hcc
  · exact actWF_putChal a ctx ch hwf

theorem revealNextChallengerAux_consWF (g : Game) (tp : Nat) (a : ActionSt)
    (ctx : ChalCtx) (ch : Challenge) (x : Nat) (hcc : cardCount g = x)
    (hwf : CtxWF a ctx) : ∀ (fuel pid : Nat),
    ConsWF x (revealNextChallengerAux g tp a ctx ch fuel pid)
  | 0, _ => consWF_err _ _ _
  | fuel+1, pid => by
    unfold revealNextChallengerAux
    cases hnp : getNextPlayer g pid with
    | error e => exact consWF_err _ _ _
    | ok q =>
      by_cases hq : q = ch.challenged_player
      · simp only [if_pos hq]
        exact parentResolveChal_consWF g tp a ctx true x hcc hwf
      · simp only [if_neg hq]
        cases hl : ch.responses.lookup q with
        | none => exact consWF_err _ _ _
        | some resp =>
          cases resp with
          | challengeR =>
            exact consWF_ok_setTurn_putChal g tp a ctx _ x hcc hwf
          | passR =>
            exact revealNextChallengerAux_consWF g tp a ctx ch x hcc hwf fuel q

theorem revealNextChallenger_consWF (g : Game) (tp : Nat) (a : ActionSt)
    (ctx : ChalCtx) (ch : Challenge) (pid : Nat) (x : Nat) (hcc : cardCount g = x)
    (hwf : CtxWF a ctx) : ConsWF x (revealNextChallenger g tp a ctx ch pid) :=
  revealNextChallengerAux_consWF g tp a ctx ch x hcc hwf _ _

theorem challengeAfterReveal_consWF (O : Oracle) (hO : O.LengthPres) (g : Game)
    (tp : Nat) (a : ActionSt) (ctx : ChalCtx) (ch : Challenge) (revealed : Role)
    (x : Nat) (hcc : cardCount g = x) (hwf : CtxWF a ctx) :
    ConsWF x (challengeAfterReveal O g tp a ctx ch revealed) := by
  obtain ⟨cp, rl, pi, rs, rvo, cco⟩ := ch
  unfold challengeAfterReveal
  cases cco with
  | none =>
    simp only
    split
    · cases hrr : revealRole g cp revealed with
      | error e => exact consWF_err _ _ _
      | ok g2 =>
        simp only
        obtain ⟨hc2, _, _⟩ := revealRole_spec _ _ _ _ hrr
        exact parentResolveChal_consWF _ tp a ctx false x
          (by rw [cardCount_traceLostChallenge, hc2]; exact hcc) hwf
    · cases hrr : replaceRole O g cp revealed with
      | error e => exact consWF_err _ _ _
      | ok g2 =>
        obtain ⟨hc2, _⟩ := replaceRole_spec O hO g cp revealed g2 hrr
        exact revealNextChallenger_consWF _ tp a ctx _ _ x
          (by rw [hc2]; exact hcc) hwf
  | some cc =>
    cases cc with
    | true => exact consWF_err _ _ _
    | false =>
      simp only [Bool.false_eq_true, if_false]
      cases rvo with
      | none => exact consWF_err _ _ _
      | some rv =>
        simp only
        cases hrr : revealRole g rv.player_id revealed with
        | error e => exact consWF_err _ _ _
        | ok g2 =>
          obtain ⟨hc2, _, _⟩ := revealRole_spec _ _ _ _ hrr
          exact revealNextChallenger_consWF _ tp a ctx _ _ x
            (by rw [hc2]; exact hcc) hwf

theorem challengePlayAction_consWF (O : Oracle) (hO : O.LengthPres) (g : Game)
    (tp : Nat) (a : ActionSt) (ctx : ChalCtx) (ch : Challenge) (act : PAct)
    (x : Nat) (hcc : cardCount g = x) (hwf : CtxWF a ctx) :
    ConsWF x (challengePlayAction O g tp a ctx ch act) := by
  unfold challengePlayAction
  split
  · split
    · split
      · exact challengeAfterReveal_consWF O hO _ tp a ctx ch _ x
          (by rw [cardCount_traceReveal]; exact hcc) hwf
      · exact consWF_err _ _ _
    · exact consWF_err _ _ _
  · simp only
    split
    · split
      · exact consWF_err _ _ _
      · split
        · split
          · exact consWF_ok_setTurn_putChal g tp a ctx _ x hcc hwf
          · exact parentResolveChal_consWF g tp a ctx true x hcc hwf
        · exact consWF_ok_setTurn_putChal g tp a ctx _ x hcc hwf
    · split
      · exact consWF_err _ _ _
      · split
        · split
          · exact consWF_ok_setTurn_putChal g tp a ctx _ x hcc hwf
          · exact parentResolveChal_consWF g tp a ctx true x hcc hwf
        · exact consWF_ok_setTurn_putChal g tp a ctx _ x hcc hwf
    · exact consWF_err _ _ _

theorem mkChallenge_spec (g : Game) (c : Nat) (role : Role) (g2 : Game)
    (ch : Challenge) (h : mkChallenge g c role = .ok (g2, ch)) :
    cardCount g2 = cardCount g ∧ g2.state = g.state := by
  unfold mkChallenge at h
  cases hnp : getNextPlayer g c with
  | error e =>
    rw [hnp] at h
    exact absurd h (by simp)
  | ok nxt =>
    rw [hnp] at h
    obtain ⟨h1, h2⟩ := Prod.mk.injEq _ _ _ _ ▸ Except.ok.inj h
    subst h1
    exact ⟨cardCount_traceClaim _ _ _, state_traceClaim _ _ _⟩

theorem executeBlock_consWF (O : Oracle) (g : Game) (tp : Nat) (a : ActionSt)
    (b : Block) (x : Nat) (hcc : cardCount g = x) (hch : a.challenge = none)
    (hfa : a.final_action = none) (hdr : a.drawn_roles = none) :
    ConsWF x (executeBlock O g tp a b) := by
  unfold executeBlock
  simp only
  split
  · exact actionResolveBlock_consWF g tp a true x hcc hch hfa hdr
  · split
    · rename_i pid r heq
      cases hmk : mkChallenge g pid r with
      | error e => exact consWF_err _ _ _
      | ok p =>
        obtain ⟨g2, ch⟩ := p
        obtain ⟨hc2, _⟩ := mkChallenge_spec _ _ _ _ _ hmk
        apply consWF_ok_setTurn
        · show cardCount g2 + (a.drawn_roles.getD []).length = x
          rw [hdr, hc2]
          simpa using hcc
        · exact Or.inr (Or.inr (Or.inl ⟨hch, hfa, hdr⟩))
    · exact consWF_err _ _ _
    · exact consWF_err _ _ _

theorem blockPlayAction_consWF (O : Oracle) (hO : O.LengthPres) (g : Game)
    (tp : Nat) (a : ActionSt) (b : Block) (act : PAct) (x : Nat)
    (hcc : cardCount g = x) (hch : a.challenge = none)
    (hfa : a.final_action = none) (hdr : a.drawn_roles = none) :
    ConsWF x (blockPlayAction O g tp a b act) := by
  unfold blockPlayAction
  split
  · exact challengePlayAction_consWF O hO g tp a (.onBlock b) _ act x hcc
      ⟨hch, hfa, hdr⟩
  · split
    · exact consWF_err _ _ _
    · simp only
      split
      · exact executeBlock_consWF O g tp a _ x hcc hch hfa hdr
      · split
        · exact consWF_err _ _ _
        · split
          · exact executeBlock_consWF O g tp a _ x hcc hch hfa hdr
          · apply consWF_ok_setTurn
            · show cardCount g + (a.drawn_roles.getD []).length = x
              rw [hdr]
              simpa using hcc
            · exact Or.inr (Or.inr (Or.inl ⟨hch, hfa, hdr⟩))

theorem actionAfterReveal_consWF (g : Game) (tp : Nat) (a : ActionSt)
    (revealed : Role) (x : Nat) (hcc : cardCount g = x) :
    ConsWF x (actionAfterReveal g tp a revealed) := by
  unfold actionAfterReveal
  cases ht : a.target_player with
  | none => exact consWF_err _ _ _
  | some tgt =>
    simp only
    cases hrr : revealRole g tgt revealed with
    | error e => exact consWF_err _ _ _
    | ok g2 =>
      obtain ⟨hc2, _, _⟩ := revealRole_spec _ _ _ _ hrr
      exact endTurn_consWF _ _ _ (hc2.trans hcc)

theorem removeAll_length : ∀ (rs pool rest : List Role),
    playFinalAction.removeAll pool rs = some rest →
    rest.length + rs.length = pool.length
  | [], pool, rest, h => by
    unfold playFinalAction.removeAll at h
    cases Option.some.inj h
    simp
  | r :: rs, pool, rest, h => by
    unfold playFinalAction.removeAll at h
    split at h
    · rename_i hmem
      have hih := removeAll_length rs (pool.erase r) rest h
      have hm : r ∈ pool := List.mem_of_elem_eq_true hmem
      have he := List.length_erase_of_mem hm
      have hp : 0 < pool.length := List.length_pos.mpr (List.ne_nil_of_mem hm)
      simp only [List.length_cons]
      omega
    · exact absurd h (by simp)

theorem playFinalAction_consWF (O : Oracle) (hO : O.LengthPres) (g : Game)
    (tp : Nat) (a : ActionSt) (act : PAct) (x : Nat)
    (hcc : cardCount g + (a.drawn_roles.getD []).length = x) :
    ConsWF x (playFinalAction O g tp a act) := by
  unfold playFinalAction
  split
  · split
    · rename_i nr
      simp only
      split
      · exact consWF_err _ _ _
      · rename_i hlen
        split
        · exact consWF_err _ _ _
        · rename_i drawn hdrawn
          split
          · exact consWF_err _ _ _
          · rename_i rest hrem
            split
            · exact consWF_err _ _ _
            · rename_i g2 hrar
              apply endTurn_consWF
              rw [cardCount_traceExchange, cardCount_replaceCards O hO]
              obtain ⟨hc2, _⟩ := cardCount_replaceAllRoles _ _ _ _ hrar
              rw [hc2]
              have hrl := removeAll_length _ _ _ hrem
              rw [hdrawn] at hcc
              simp only [Option.getD_some] at hcc
              have hne : nr.length = (getInfluence g a.player_id).length :=
                not_ne_iff.mp hlen
              rw [List.length_append] at hrl
              omega
    · exact consWF_err _ _ _
  · exact consWF_err _ _ _

theorem actionPlayAction_consWF (O : Oracle) (hO : O.LengthPres) (g : Game)
    (tp : Nat) (a : ActionSt) (act : PAct) (x : Nat)
    (hcc : cardCount g + (a.drawn_roles.getD []).length = x) (hwf : ActWF a) :
    ConsWF x (actionPlayAction O g tp a act) := by
  obtain ⟨nm, pid, tgt, ch, bl, fa, dr⟩ := a
  simp only at hcc
  unfold actionPlayAction
  cases ch with
  | some ch1 =>
    obtain ⟨h1, h2, h3⟩ := actWF_of_challenge hwf rfl
    have h3' : dr = none := h3
    subst h3'
    have hcc1 : cardCount g = x := by simpa using hcc
    exact challengePlayAction_consWF O hO g tp _ .onAction ch1 act x hcc1
      ⟨h1, h2, rfl⟩
  | none =>
    simp only
    cases bl with
    | some b =>
      obtain ⟨h1, h2, h3⟩ := actWF_of_block hwf rfl
      have h3' : dr = none := h3
      subst h3'
      have hcc1 : cardCount g = x := by simpa using hcc
      exact blockPlayAction_consWF O hO g tp _ b act x hcc1 rfl h2 rfl
    | none =>
      simp only
      cases fa with
      | some rv =>
        have h3' : dr = none := actWF_of_final hwf rfl
        subst h3'
        have hcc1 : cardCount g = x := by simpa using hcc
        simp only
        split
        · split
          · exact actionAfterReveal_consWF _ tp _ _ x
              (by rw [cardCount_traceReveal]; exact hcc1)
          · exact consWF_err _ _ _
        · exact consWF_err _ _ _
      | none =>
        simp only
        exact playFinalAction_consWF O hO g tp _ act x hcc

theorem buildInitialAction_consWF (g : Game) (tp : Nat) (name : ActName)
    (target : Option Nat) (x : Nat) (hcc : cardCount g = x) :
    ConsWF x (buildInitialAction g tp name target) := by
  unfold buildInitialAction
  cases name
  case income => exact endTurn_consWF _ _ _ (by rw [cardCount_addCash]; exact hcc)
  case foreign_aid =>
    cases hmk : mkBlock g tp [.duke] none with
    | error e => exact consWF_err _ _ _
    | ok b =>
      simp only
      apply consWF_ok_setTurn
      · show cardCount (deductCash g tp ActName.foreign_aid.cost).1 + 0 = x
        rw [cardCount_deductCash]
        omega
      · exact Or.inr (Or.inr (Or.inl ⟨rfl, rfl, rfl⟩))
  case tax =>
    cases hmk : mkChallenge g tp .duke with
    | error e => exact consWF_err _ _ _
    | ok p =>
      obtain ⟨g2, ch⟩ := p
      obtain ⟨hc2, _⟩ := mkChallenge_spec _ _ _ _ _ hmk
      apply consWF_ok_setTurn
      · show cardCount g2 + 0 = x
        rw [hc2]
        omega
      · exact Or.inr (Or.inr (Or.inr ⟨rfl, rfl, rfl⟩))
  case exchange =>
    cases hmk : mkChallenge g tp .ambassador with
    | error e => exact consWF_err _ _ _
    | ok p =>
      obtain ⟨g2, ch⟩ := p
      obtain ⟨hc2, _⟩ := mkChallenge_spec _ _ _ _ _ hmk
      apply consWF_ok_setTurn
      · show cardCount g2 + 0 = x
        rw [hc2]
        omega
      · exact Or.inr (Or.inr (Or.inr ⟨rfl, rfl, rfl⟩))
  case steal =>
    cases hmk : mkChallenge g tp .captain with
    | error e => exact consWF_err _ _ _
    | ok p =>
      obtain ⟨g2, ch⟩ := p
      obtain ⟨hc2, _⟩ := mkChallenge_spec _ _ _ _ _ hmk
      apply consWF_ok_setTurn
      · show cardCount g2 + 0 = x
        rw [hc2]
        omega
      · exact Or.inr (Or.inr (Or.inr ⟨rfl, rfl, rfl⟩))
  case assassinate =>
    cases hmk : mkChallenge g tp .assassin with
    | error e => exact consWF_err _ _ _
    | ok p =>
      obtain ⟨g2, ch⟩ := p
      obtain ⟨hc2, _⟩ := mkChallenge_spec _ _ _ _ _ hmk
      apply consWF_ok_setTurn
      · show cardCount g2 + 0 = x
        rw [hc2]
        omega
      · exact Or.inr (Or.inr (Or.inr ⟨rfl, rfl, rfl⟩))
  case coup =>
    cases target with
    | none => exact consWF_err _ _ _
    | some tgt =>
      simp only
      apply consWF_ok_setTurn
      · show cardCount (deductCash g tp ActName.coup.cost).1 + 0 = x
        rw [cardCount_deductCash]
        omega
      · exact Or.inr (Or.inl ⟨rfl, rfl, rfl⟩)

theorem turnPlayInitial_consWF (g : Game) (tp : Nat) (act : PAct) (x : Nat)
    (hcc : cardCount g = x) : ConsWF x (turnPlayInitial g tp act) := by
  unfold turnPlayInitial
  split
  · exact consWF_err _ _ _
  · split
    · exact consWF_err _ _ _
    · split
      · exact consWF_err _ _ _
      · split
        · exact consWF_err _ _ _
        · exact buildInitialAction_consWF g tp _ _ x hcc

theorem turnPlayAction_consWF (O : Oracle) (hO : O.LengthPres) (g : Game)
    (t : TurnSt) (act : PAct) (x : Nat) (hcc : cardCount g + drawnOfTurn t = x)
    (hwf : TreeWF (.turn t)) : ConsWF x (turnPlayAction O g t act) := by
  obtain ⟨tp, ao⟩ := t
  unfold turnPlayAction
  cases ao with
  | some a => exact actionPlayAction_consWF O hO g tp a act x hcc hwf
  | none =>
    have hcc1 : cardCount g + 0 = x := hcc
    exact turnPlayInitial_consWF g tp act x (by omega)

theorem postCheck_ok_inv (r : PlayResult) (g' : Game) (h : postCheck r = .ok g') :
    r = .ok g' := by
  cases r with
  | err e g0 => simp [postCheck] at h
  | ok g0 =>
    simp only [postCheck] at h
    split at h
    · exact h
    · split at h
      · exact h
      · exact absurd h (by simp)

theorem postCheck_consWF (r : PlayResult) (x : Nat) (h : ConsWF x r) :
    ConsWF x (postCheck r) :=
  fun g' hg => h g' (postCheck_ok_inv r g' hg)

/-- Conservation through one `Coup.play_action` call. -/
theorem playAction_consWF (O : Oracle) (hO : O.LengthPres) (g : Game) (act : PAct)
    (x : Nat) (hcc : totalCards g = x) (hwf : TreeWF g.state) :
    ConsWF x (playAction O g act) := by
  unfold playAction
  cases hgs : g.state with
  | gameOver w => exact consWF_err _ _ _
  | turn t =>
    apply postCheck_consWF
    apply turnPlayAction_consWF O hO g t act x _ (hgs ▸ hwf)
    rw [← totalCards_of_turn g t hgs]
    exact hcc

theorem dealPlayers_spec : ∀ (g : Game) (n : Nat) (ps : List Player) (g' : Game),
    dealPlayers g n = .ok (ps, g') →
    g'.deck.length + (ps.map (fun p => p.hidden.length + p.revealed.length)).sum
      = g.deck.length ∧ g'.state = g.state
  | g, 0, ps, g', h => by
    unfold dealPlayers at h
    obtain ⟨h1, h2⟩ := Prod.mk.injEq _ _ _ _ ▸ Except.ok.inj h
    subst h1
    subst h2
    simp
  | g, n+1, ps, g', h => by
    unfold dealPlayers at h
    cases hd : dealCards g 2 with
    | error e =>
      rw [hd] at h
      exact absurd h (by simp)
    | ok p =>
      obtain ⟨cards, g1⟩ := p
      rw [hd] at h
      simp only at h
      cases hp : dealPlayers g1 n with
      | error e =>
        rw [hp] at h
        exact absurd h (by simp)
      | ok q =>
        obtain ⟨rest, g2⟩ := q
        rw [hp] at h
        obtain ⟨h1, h2⟩ := Prod.mk.injEq _ _ _ _ ▸ Except.ok.inj h
        subst h1
        subst h2
        obtain ⟨hd1, hn1, _, hs1, _⟩ := dealCards_spec _ _ _ _ hd
        obtain ⟨ih1, ih2⟩ := dealPlayers_spec g1 n rest g2 hp
        refine ⟨?_, ih2.trans hs1⟩
        simp only [List.map_cons, List.sum_cons, List.length_nil]
        omega

/-- Coup.init_game deals a conserving, well-formed start state: all 15
cards are in the deck or in hands, and seat 0 has a bare turn. -/
theorem initGame_spec (O : Oracle) (hO : O.LengthPres) (n : Nat) (g : Game)
    (h : initGame O n = .ok g) : totalCards g = 15 ∧ TreeWF g.state := by
  unfold initGame at h
  simp only at h
  cases hdp : dealPlayers { num_players := n, players := [], deck := O.shuffle (ALL_ROLES ++ ALL_ROLES ++ ALL_ROLES), state := .turn ⟨0, none⟩ } n with
  | error e =>
    rw [hdp] at h
    exact absurd h (by simp)
  | ok p =>
    obtain ⟨ps, g1⟩ := p
    rw [hdp] at h
    cases Except.ok.inj h
    obtain ⟨h1, h2⟩ := dealPlayers_spec _ _ _ _ hdp
    simp only at h1 h2
    have hdeck : (O.shuffle (ALL_ROLES ++ ALL_ROLES ++ ALL_ROLES)).length = 15 := by
      rw [hO]
      rfl
    have hstate : ({ g1 with players := ps } : Game).state = GState.turn ⟨0, none⟩ := h2
    constructor
    · unfold totalCards drawnCount
      rw [hstate]
      show cardCount _ + drawnOfTurn ⟨0, none⟩ = 15
      have hz : drawnOfTurn (⟨0, none⟩ : TurnSt) = 0 := rfl
      rw [hz]
      show g1.deck.length
        + (ps.map (fun p => p.hidden.length + p.revealed.length)).sum + 0 = 15
      omega
    · rw [hstate]
      trivial

/-- The conservation invariant holds in every reachable state that is not
yet GameOver. -/
theorem reachable_inv (g : Game) (h : Reachable g) :
    isGameOver g = false → totalCards g = 15 ∧ TreeWF g.state := by
  induction h with
  | init O n g0 hO hinit =>
    intro _
    exact initGame_spec O hO n g0 hinit
  | step O g0 g1 a hO hr hp ih =>
    intro hgo1
    have hg0 : isGameOver g0 = false := by
      unfold playAction at hp
      cases hgs : g0.state with
      | turn t => simp [isGameOver, hgs]
      | gameOver w =>
        rw [hgs] at hp
        exact absurd hp (by simp)
    obtain ⟨hcc, hwf⟩ := ih hg0
    obtain ⟨hc, hw⟩ := playAction_consWF O hO g0 a 15 hcc hwf g1 hp
    exact ⟨hc hgo1, hw⟩

/-- C2 (amended): in every reachable state in which the game is not over,
the 15 cards are all accounted for once the cards drawn by an in-flight
exchange (held by the Turn tree, not by the dealer or a hand) are counted
too: deck + hidden + revealed + drawn = 15.  The bare sum of deck, hidden
and revealed counts alone drops to 13 in the choose-new-roles sub-phase
(see the counterexample). -/
theorem total_cards_conserved (g : Game) (h : Reachable g)
    (hgo : isGameOver g = false) : totalCards g = 15 :=
  (reachable_inv g h hgo).1

/-- Counterexample for C2 as written: a successful exchange draw leaves
only 13 cards in deck + hidden + revealed, the other two sitting in the
Turn tree's `drawn_roles`. -/
theorem total_cards_cex :
    ∃ g1 g2 g3 : Game,
      initGame idO 2 = Except.ok g1 ∧
      playAction idO g1 PAct.exchangeA = PlayResult.ok g2 ∧
      playAction idO g2 PAct.passA = PlayResult.ok g3 ∧
      isGameOver g3 = false ∧
      cardCount g3 = 13 := by
  refine ⟨_, _, _, rfl, rfl, rfl, rfl, rfl⟩

/-- Witness for C2: the freshly initialized four-player game conserves all
15 cards. -/
theorem total_cards_conserved_witness :
    totalCards gStart = 15 ∧ isGameOver gStart = false :=
  ⟨total_cards_conserved gStart
    (Reachable.init idO 4 gStart idO_lengthPres rfl) rfl,
   rfl⟩

/-! ## The challenge cascade (C5): seat-order characterization -/

theorem mod_window_inj (n : Nat) (hn : 0 < n) (x i j : Nat) (hi : i < n) (hj : j < n)
    (hij : i ≠ j) : (x + i) % n ≠ (x + j) % n := by
  intro heq
  have h1 : i % n = j % n := Nat.ModEq.add_left_cancel rfl heq
  rw [Nat.mod_eq_of_lt hi, Nat.mod_eq_of_lt hj] at h1
  exact hij h1

theorem mod_step_shift (n cur y : Nat) :
    ((cur + 1) % n + y) % n = (cur + 1 + y) % n := Nat.mod_add_mod _ _ _

/-- The `get_next_player` loop finds the first live seat after `cur`,
provided the scan does not pass through `start` first. -/
theorem getNextPlayerAux_finds (g : Game) (start : Nat) :
    ∀ (k fuel cur : Nat), k < fuel →
    isAlive g ((cur + 1 + k) % g.num_players) = true →
    (∀ j, j < k → isAlive g ((cur + 1 + j) % g.num_players) = false) →
    (∀ j, j < k → (cur + 1 + j) % g.num_players ≠ start) →
    getNextPlayerAux g start fuel cur = .ok ((cur + 1 + k) % g.num_players)
  | 0, fuel+1, cur, _, halive, _, _ => by
    unfold getNextPlayerAux
    simp only
    rw [if_pos (by simpa using halive)]
  | k+1, fuel+1, cur, hfuel, halive, hdead, hstart => by
    unfold getNextPlayerAux
    simp only
    rw [if_neg (by simp [hdead 0 (by omega)]), if_neg (by simpa using hstart 0 (by omega))]
    have hshift : ∀ y, ((cur + 1) % g.num_players + 1 + y) % g.num_players
        = (cur + 1 + (y + 1)) % g.num_players := by
      intro y
      have h1 : (cur + 1) % g.num_players + 1 + y
          = (cur + 1) % g.num_players + (1 + y) := by omega
      rw [h1, mod_step_shift]
      congr 1
      omega
    have hrec := getNextPlayerAux_finds g start k fuel ((cur + 1) % g.num_players)
      (by omega)
      (by rw [hshift]; exact halive)
      (by
        intro j hj
        rw [hshift]
        exact hdead (j + 1) (by omega))
      (by
        intro j hj
        rw [hshift]
        exact hstart (j + 1) (by omega))
    rw [hrec, hshift]

/-- `get_next_player` returns the first live seat strictly after `p` in
cyclic seat order. -/
theorem getNextPlayer_finds (g : Game) (p k : Nat) (hn : 0 < g.num_players)
    (hp : p < g.num_players) (hk : k < g.num_players)
    (halive : isAlive g ((p + 1 + k) % g.num_players) = true)
    (hdead : ∀ j, j < k → isAlive g ((p + 1 + j) % g.num_players) = false) :
    getNextPlayer g p = .ok ((p + 1 + k) % g.num_players) := by
  apply getNextPlayerAux_finds g p k (g.num_players + 1) p (by omega) halive hdead
  intro j hj heq
  have hne := mod_window_inj g.num_players hn p (1 + j) 0 (by omega) hn (by omega)
  apply hne
  have h1 : p + (1 + j) = p + 1 + j := by omega
  rw [h1, heq]
  simp [Nat.mod_eq_of_lt hp]

/-- Number of seats scanned from `p` (exclusive) until `c` is reached in
cyclic order. -/
def cycDist (n p c : Nat) : Nat := (c + n - (p + 1) % n) % n

theorem cycDist_lt (n p c : Nat) (hn : 0 < n) : cycDist n p c < n :=
  Nat.mod_lt _ hn

theorem cycDist_spec (n p c : Nat) (hn : 0 < n) (hc : c < n) :
    (p + 1 + cycDist n p c) % n = c := by
  unfold cycDist
  rw [Nat.add_comm (p + 1) _, Nat.mod_add_mod, Nat.add_comm _ (p + 1)]
  have hdm := Nat.div_add_mod (p + 1) n
  rw [Nat.mul_comm] at hdm
  have hr : (p + 1) % n < n := Nat.mod_lt _ hn
  have harg : p + 1 + (c + n - (p + 1) % n) = c + n + (p + 1) / n * n := by omega
  rw [harg, Nat.add_mul_mod_self_right, Nat.add_mod_right]
  exact Nat.mod_eq_of_lt hc

/-- Modelled from the spec (C5): the challengers who must reveal, in seat
order starting after seat `p`, skipping dead players and players who did
not respond CHALLENGE; `d` seats are scanned. -/
def challengersFrom (g : Game) (ch : Challenge) (p d : Nat) : List Nat :=
  ((List.range d).map (fun i => (p + 1 + i) % g.num_players)).filter
    (fun q => isAlive g q && (ch.responses.lookup q == some ChalResp.challengeR))

/-- Modelled from the spec (C5): all challengers in seat order starting
after the challenged player. -/
def challengeQueue (g : Game) (ch : Challenge) : List Nat :=
  challengersFrom g ch ch.challenged_player
    (cycDist g.num_players ch.challenged_player ch.challenged_player)

theorem challengersFrom_split (g : Game) (ch : Challenge) (p k d' : Nat) :
    challengersFrom g ch p (k + 1 + d') =
      challengersFrom g ch p (k + 1)
        ++ challengersFrom g ch ((p + 1 + k) % g.num_players) d' := by
  unfold challengersFrom
  rw [List.range_add, List.map_append, List.filter_append]
  congr 2
  rw [List.map_map]
  apply List.map_eq_map_iff.mpr
  intro i _
  simp only [Function.comp]
  have h1 : (p + 1 + k) % g.num_players + 1 + i
      = (p + 1 + k) % g.num_players + (1 + i) := by omega
  rw [h1, Nat.mod_add_mod]
  congr 1
  omega

theorem challengersFrom_zero (g : Game) (ch : Challenge) (p : Nat) :
    challengersFrom g ch p 0 = [] := rfl

theorem challengersFrom_nil_of_dead (g : Game) (ch : Challenge) (p d : Nat)
    (hdead : ∀ i, i < d → isAlive g ((p + 1 + i) % g.num_players) = false) :
    challengersFrom g ch p d = [] := by
  apply List.filter_eq_nil_iff.mpr
  intro q hq
  obtain ⟨i, hi, rfl⟩ := List.mem_map.mp hq
  rw [hdead i (List.mem_range.mp hi)]
  simp

theorem challengersFrom_succ_last (g : Game) (ch : Challenge) (p k : Nat) :
    challengersFrom g ch p (k + 1) =
      challengersFrom g ch p k
        ++ (if isAlive g ((p + 1 + k) % g.num_players)
              && (ch.responses.lookup ((p + 1 + k) % g.num_players)
                  == some ChalResp.challengeR)
            then [(p + 1 + k) % g.num_players] else []) := by
  unfold challengersFrom
  rw [List.range_succ, List.map_append, List.filter_append]
  congr 1
  simp only [List.map_cons, List.map_nil, List.filter]
  split <;> rename_i hcond
  · rw [hcond]
    simp
  · rw [hcond]
    simp

/-- The cascade loop of `Challenge._reveal_next_challenger` visits exactly
the challengers in seat order, skipping dead players and players who
passed, and notifies the parent with `resolve_challenge(True)` after the
last one. -/
theorem revealNextChallengerAux_cascade (g : Game) (tp : Nat) (a : ActionSt)
    (ctx : ChalCtx) (ch : Challenge)
    (hca : isAlive g ch.challenged_player = true)
    (hresp : ∀ q, q < g.num_players → isAlive g q = true →
      q ≠ ch.challenged_player → (ch.responses.lookup q).isSome = true) :
    ∀ (fuel d p : Nat), p < g.num_players → d < g.num_players → d < fuel →
    (p + 1 + d) % g.num_players = ch.challenged_player →
    revealNextChallengerAux g tp a ctx ch fuel p =
      match challengersFrom g ch p d with
      | q :: _ => .ok (setTurn g ⟨tp, some (putChal a ctx (some { ch with
          reveal := some ⟨q, if ch.challenge_correct.getD false
            then RevealPhase.correct_challenge
            else RevealPhase.incorrect_challenge⟩ }))⟩)
      | [] => parentResolveChal g tp a ctx true
  | 0, d, p, hp, hd, hfuel, hdc => absurd hfuel (by omega)
  | fuel+1, d, p, hp, hd, hfuel, hdc => by
    have hn : 0 < g.num_players := by omega
    by_cases hall : ∀ i, i < d → isAlive g ((p + 1 + i) % g.num_players) = false
    · have hfind := getNextPlayer_finds g p d hn hp hd (by rw [hdc]; exact hca) hall
      rw [hdc] at hfind
      unfold revealNextChallengerAux
      rw [hfind]
      simp only
      rw [if_pos trivial, challengersFrom_nil_of_dead g ch p d hall]
    · push_neg at hall
      have hex : ∃ i, i < d ∧ isAlive g ((p + 1 + i) % g.num_players) = true := by
        obtain ⟨i0, hi0, hal0⟩ := hall
        exact ⟨i0, hi0, by simpa using hal0⟩
      obtain ⟨hkd, hkal⟩ := Nat.find_spec hex
      have hkdead : ∀ j, j < Nat.find hex →
          isAlive g ((p + 1 + j) % g.num_players) = false := by
        intro j hj
        have hmin := Nat.find_min hex hj
        simp only [not_and] at hmin
        have := hmin (by omega)
        simpa using this
      have hq0 : getNextPlayer g p
          = .ok ((p + 1 + Nat.find hex) % g.num_players) :=
        getNextPlayer_finds g p (Nat.find hex) hn hp (by omega) hkal hkdead
      have hq0lt : (p + 1 + Nat.find hex) % g.num_players < g.num_players :=
        Nat.mod_lt _ hn
      have hq0ne : (p + 1 + Nat.find hex) % g.num_players
          ≠ ch.challenged_player := by
        rw [← hdc]
        rcases Nat.lt_or_ge (1 + d) g.num_players with hlt | hge
        · have hinj := mod_window_inj g.num_players hn p (1 + Nat.find hex)
            (1 + d) (by omega) hlt (by omega)
          have e1 : p + (1 + Nat.find hex) = p + 1 + Nat.find hex := by omega
          have e2 : p + (1 + d) = p + 1 + d := by omega
          rw [e1, e2] at hinj
          exact hinj
        · have hc2 : (p + 1 + d) % g.num_players = p := by
            have e3 : p + 1 + d = p + g.num_players := by omega
            rw [e3, Nat.add_mod_right, Nat.mod_eq_of_lt hp]
          rw [hc2]
          have hinj := mod_window_inj g.num_players hn p (1 + Nat.find hex) 0
            (by omega) hn (by omega)
          have e1 : p + (1 + Nat.find hex) = p + 1 + Nat.find hex := by omega
          rw [e1] at hinj
          simpa [Nat.mod_eq_of_lt hp] using hinj
      have hsome := hresp _ hq0lt hkal hq0ne
      obtain ⟨resp, hlk⟩ := Option.isSome_iff_exists.mp hsome
      unfold revealNextChallengerAux
      rw [hq0]
      simp only
      rw [if_neg hq0ne, hlk]
      have hdsplit : d = Nat.find hex + 1 + (d - Nat.find hex - 1) := by omega
      have hlist : challengersFrom g ch p d
          = challengersFrom g ch p (Nat.find hex + 1)
            ++ challengersFrom g ch ((p + 1 + Nat.find hex) % g.num_players)
                (d - Nat.find hex - 1) := by
        conv_lhs => rw [hdsplit]
        exact challengersFrom_split g ch p (Nat.find hex) (d - Nat.find hex - 1)
      have hpre := challengersFrom_succ_last g ch p (Nat.find hex)
      rw [challengersFrom_nil_of_dead g ch p (Nat.find hex) hkdead] at hpre
      cases resp with
      | challengeR =>
        rw [if_pos (by rw [hkal, hlk]; rfl)] at hpre
        rw [hlist, hpre]
        simp only [List.nil_append, List.singleton_append]
      | passR =>
        rw [if_neg (by rw [hlk]; simp)] at hpre
        rw [hlist, hpre]
        simp only [List.nil_append]
        have hdc2 : ((p + 1 + Nat.find hex) % g.num_players + 1
            + (d - Nat.find hex - 1)) % g.num_players = ch.challenged_player := by
          have e4 : (p + 1 + Nat.find hex) % g.num_players + 1
              + (d - Nat.find hex - 1)
              = (p + 1 + Nat.find hex) % g.num_players
                + (1 + (d - Nat.find hex - 1)) := by omega
          rw [e4, Nat.mod_add_mod]
          have e5 : p + 1 + Nat.find hex + (1 + (d - Nat.find hex - 1))
              = p + 1 + d := by omega
          rw [e5, hdc]
        exact revealNextChallengerAux_cascade g tp a ctx ch hca hresp fuel
          (d - Nat.find hex - 1) ((p + 1 + Nat.find hex) % g.num_players)
          hq0lt (by omega) (by omega) hdc2

theorem getPlayer_updatePlayer_ne (g : Game) (pid q : Nat) (f : Player → Player)
    (h : q ≠ pid) : getPlayer (updatePlayer g pid f) q = getPlayer g q := by
  simp [getPlayer, updatePlayer, List.getD, List.getElem?_set_ne (fun he => h he.symm)]

theorem exists_getLast (l : List Role) (h : l ≠ []) : ∃ r, l.getLast? = some r := by
  cases hgl : l.getLast? with
  | some r => exact ⟨r, rfl⟩
  | none => exact absurd (List.getLast?_eq_none_iff.mp hgl) h

/-- `Coup.replace_role`, in detail: the revealed role goes back into the
deck, the deck is reshuffled, the top card (the end of the list, where
`deal_cards` pops) is dealt back to the player, and nobody else is
touched. -/
theorem replaceRole_swap (O : Oracle) (hO : O.LengthPres) (g : Game) (pid : Nat)
    (role : Role) (hmem : (getPlayer g pid).hidden.contains role = true) :
    ∃ (newCard : Role) (g' : Game),
      replaceRole O g pid role = .ok g' ∧
      (O.shuffle (g.deck ++ [role])).getLast? = some newCard ∧
      g'.deck = (O.shuffle (g.deck ++ [role])).dropLast ∧
      (getPlayer g' pid).hidden = ((getPlayer g pid).hidden.erase role) ++ [newCard] ∧
      (getPlayer g' pid).revealed = (getPlayer g pid).revealed ∧
      g'.state = g.state ∧ g'.num_players = g.num_players ∧
      (∀ q, q ≠ pid → getPlayer g' q = getPlayer g q) := by
  have hpid := lt_length_of_hidden_mem hmem
  have hne : O.shuffle (g.deck ++ [role]) ≠ [] := by
    intro hnil
    have hlen := hO (g.deck ++ [role])
    rw [hnil] at hlen
    simp at hlen
  obtain ⟨newCard, hgl⟩ := exists_getLast _ hne
  have hpid1 : pid < (replaceCards O (updatePlayer g pid
      (fun p => { p with hidden := p.hidden.erase role })) [role]).players.length := by
    show pid < (updatePlayer g pid
      (fun p => { p with hidden := p.hidden.erase role })).players.length
    rw [players_length_updatePlayer]
    exact hpid
  refine ⟨newCard,
    updatePlayer { replaceCards O (updatePlayer g pid (fun p => { p with hidden := p.hidden.erase role })) [role] with deck := (O.shuffle (g.deck ++ [role])).dropLast } pid (fun p => { p with hidden := p.hidden ++ [newCard] }),
    ?_, hgl, rfl, ?_, ?_, rfl, rfl, ?_⟩
  · unfold replaceRole
    rw [if_pos hmem]
    simp only
    have hscrut : (replaceCards O (updatePlayer g pid
        (fun p => { p with hidden := p.hidden.erase role })) [role]).deck.getLast?
        = some newCard := hgl
    unfold dealCards
    rw [hscrut]
    rfl
  · have e1 := getPlayer_updatePlayer_self
      { replaceCards O (updatePlayer g pid (fun p => { p with hidden := p.hidden.erase role })) [role] with deck := (O.shuffle (g.deck ++ [role])).dropLast }
      pid (fun p => { p with hidden := p.hidden ++ [newCard] }) hpid1
    rw [e1]
    have e2 : getPlayer { replaceCards O (updatePlayer g pid (fun p => { p with hidden := p.hidden.erase role })) [role] with deck := (O.shuffle (g.deck ++ [role])).dropLast } pid
        = getPlayer (updatePlayer g pid (fun p => { p with hidden := p.hidden.erase role })) pid := rfl
    rw [e2, getPlayer_updatePlayer_self _ _ _ hpid]
  · have e1 := getPlayer_updatePlayer_self
      { replaceCards O (updatePlayer g pid (fun p => { p with hidden := p.hidden.erase role })) [role] with deck := (O.shuffle (g.deck ++ [role])).dropLast }
      pid (fun p => { p with hidden := p.hidden ++ [newCard] }) hpid1
    rw [e1]
    have e2 : getPlayer { replaceCards O (updatePlayer g pid (fun p => { p with hidden := p.hidden.erase role })) [role] with deck := (O.shuffle (g.deck ++ [role])).dropLast } pid
        = getPlayer (updatePlayer g pid (fun p => { p with hidden := p.hidden.erase role })) pid := rfl
    rw [e2, getPlayer_updatePlayer_self _ _ _ hpid]
  · intro q hq
    have e1 := getPlayer_updatePlayer_ne
      { replaceCards O (updatePlayer g pid (fun p => { p with hidden := p.hidden.erase role })) [role] with deck := (O.shuffle (g.deck ++ [role])).dropLast }
      pid q (fun p => { p with hidden := p.hidden ++ [newCard] }) hq
    rw [e1]
    have e2 : getPlayer { replaceCards O (updatePlayer g pid (fun p => { p with hidden := p.hidden.erase role })) [role] with deck := (O.shuffle (g.deck ++ [role])).dropLast } q
        = getPlayer (updatePlayer g pid (fun p => { p with hidden := p.hidden.erase role })) q := rfl
    rw [e2, getPlayer_updatePlayer_ne _ _ _ _ hq]

/-- `Coup.reveal_role`, in detail: the role moves from the player's hidden
influence to his revealed pile; the deck and everybody else are
untouched. -/
theorem revealRole_swap (g : Game) (pid : Nat) (role : Role)
    (hmem : (getPlayer g pid).hidden.contains role = true) :
    ∃ g' : Game,
      revealRole g pid role = .ok g' ∧
      (getPlayer g' pid).hidden = (getPlayer g pid).hidden.erase role ∧
      (getPlayer g' pid).revealed = (getPlayer g pid).revealed ++ [role] ∧
      g'.deck = g.deck ∧ g'.num_players = g.num_players ∧
      (∀ q, q ≠ pid → getPlayer g' q = getPlayer g q) := by
  have hpid := lt_length_of_hidden_mem hmem
  unfold revealRole
  rw [if_pos hmem]
  simp only
  split
  · rename_i live w heq
    refine ⟨_, rfl, ?_, ?_, rfl, rfl, ?_⟩
    · have e2 : getPlayer { updatePlayer g pid (fun p => { p with hidden := p.hidden.erase role, revealed := p.revealed ++ [role] }) with state := GState.gameOver w } pid
          = getPlayer (updatePlayer g pid (fun p => { p with hidden := p.hidden.erase role, revealed := p.revealed ++ [role] })) pid := rfl
      rw [e2, getPlayer_updatePlayer_self _ _ _ hpid]
    · have e2 : getPlayer { updatePlayer g pid (fun p => { p with hidden := p.hidden.erase role, revealed := p.revealed ++ [role] }) with state := GState.gameOver w } pid
          = getPlayer (updatePlayer g pid (fun p => { p with hidden := p.hidden.erase role, revealed := p.revealed ++ [role] })) pid := rfl
      rw [e2, getPlayer_updatePlayer_self _ _ _ hpid]
    · intro q hq
      have e2 : getPlayer { updatePlayer g pid (fun p => { p with hidden := p.hidden.erase role, revealed := p.revealed ++ [role] }) with state := GState.gameOver w } q
          = getPlayer (updatePlayer g pid (fun p => { p with hidden := p.hidden.erase role, revealed := p.revealed ++ [role] })) q := rfl
      rw [e2, getPlayer_updatePlayer_ne _ _ _ _ hq]
  · refine ⟨_, rfl, ?_, ?_, rfl, rfl, ?_⟩
    · rw [getPlayer_updatePlayer_self _ _ _ hpid]
    · rw [getPlayer_updatePlayer_self _ _ _ hpid]
    · intro q hq
      rw [getPlayer_updatePlayer_ne _ _ _ _ hq]

/-- C5: when the challenged player proves the claimed role R, R is moved
from his hidden influence into the reshuffled deck and one new card (the
top of the deck) is dealt to him; then the cascade visits exactly the
players who responded CHALLENGE, in seat order starting after the
challenged player, skipping dead and non-challenging players (first
conjunct: the first such challenger is put to reveal in phase
`incorrect_challenge`, or the parent is notified with
`resolve_challenge(True)` when there is none); each such challenger's
reveal moves the revealed card from hidden to revealed — he loses it —
and the cascade continues from his seat with the same rule until, after
the last challenger, the parent is notified with `resolve_challenge(True)`
(second conjunct). -/
theorem challenge_cascade :
    (∀ (O : Oracle) (g : Game) (tp : Nat) (a : ActionSt) (ctx : ChalCtx)
      (ch : Challenge),
      O.LengthPres →
      ch.challenged_player < g.num_players →
      ch.reveal = some ⟨ch.challenged_player, .prove_challenge⟩ →
      ch.challenge_correct = none →
      playerHasRole g ch.challenged_player ch.role = true →
      (∀ q, q < g.num_players → isAlive g q = true →
        q ≠ ch.challenged_player → (ch.responses.lookup q).isSome = true) →
      ∃ (newCard : Role) (g2 : Game),
        (O.shuffle (g.deck ++ [ch.role])).getLast? = some newCard ∧
        g2.deck = (O.shuffle (g.deck ++ [ch.role])).dropLast ∧
        (getPlayer g2 ch.challenged_player).hidden
          = ((getPlayer g ch.challenged_player).hidden.erase ch.role) ++ [newCard] ∧
        (getPlayer g2 ch.challenged_player).revealed
          = (getPlayer g ch.challenged_player).revealed ∧
        challengePlayAction O g tp a ctx ch (.revealA ch.role) =
          (match challengeQueue g2 { ch with challenge_correct := some false } with
           | q :: _ => .ok (setTurn g2 ⟨tp, some (putChal a ctx (some { ch with
               challenge_correct := some false,
               reveal := some ⟨q, RevealPhase.incorrect_challenge⟩ }))⟩)
           | [] => parentResolveChal g2 tp a ctx true)) ∧
    (∀ (O : Oracle) (g : Game) (tp : Nat) (a : ActionSt) (ctx : ChalCtx)
      (ch : Challenge) (q : Nat) (ph : RevealPhase) (r : Role),
      ch.challenged_player < g.num_players →
      q < g.num_players →
      q ≠ ch.challenged_player →
      isAlive g ch.challenged_player = true →
      (∀ u, u < g.num_players → isAlive g u = true →
        u ≠ ch.challenged_player → (ch.responses.lookup u).isSome = true) →
      ch.challenge_correct = some false →
      ch.reveal = some ⟨q, ph⟩ →
      playerHasRole g q r = true →
      ∃ g3 : Game,
        revealRole (traceReveal g q r) q r = .ok g3 ∧
        (getPlayer g3 q).hidden = (getPlayer g q).hidden.erase r ∧
        (getPlayer g3 q).revealed = (getPlayer g q).revealed ++ [r] ∧
        challengePlayAction O g tp a ctx ch (.revealA r) =
          (match challengersFrom g3 ch q
              (cycDist g3.num_players q ch.challenged_player) with
           | q' :: _ => .ok (setTurn g3 ⟨tp, some (putChal a ctx (some { ch with
               reveal := some ⟨q', RevealPhase.incorrect_challenge⟩ }))⟩)
           | [] => parentResolveChal g3 tp a ctx true)) := by
  constructor
  · intro O g tp a ctx ch hO hc hrv hcc hhas hresp
    obtain ⟨cp, crl, cpi, crs, crv, cco⟩ := ch
    simp only at hrv hcc hhas hresp hc
    subst hrv
    subst hcc
    have hpid : cp < g.players.length := lt_length_of_hidden_mem hhas
    have hmem_t : (getPlayer (traceReveal g cp crl) cp).hidden.contains crl = true := by
      unfold traceReveal
      rw [getPlayer_updatePlayer_self _ _ _ hpid]
      exact hhas
    obtain ⟨newCard, g2, hrep, hgl, hdk, hhid, hrev2, hst2, hnp2, hoth⟩ :=
      replaceRole_swap O hO (traceReveal g cp crl) cp crl hmem_t
    have htr : getPlayer (traceReveal g cp crl) cp
        = { getPlayer g cp with trace := (getPlayer g cp).trace ++ [.revealEv crl] } := by
      unfold traceReveal
      rw [getPlayer_updatePlayer_self _ _ _ hpid]
    have htr_ne : ∀ u, u ≠ cp → getPlayer (traceReveal g cp crl) u = getPlayer g u := by
      intro u hu
      unfold traceReveal
      rw [getPlayer_updatePlayer_ne _ _ _ _ hu]
    refine ⟨newCard, g2, hgl, hdk, ?_, ?_, ?_⟩
    · rw [hhid, htr]
    · rw [hrev2, htr]
    · have hn : 0 < g.num_players := by omega
      have hn2 : 0 < g2.num_players := by rw [hnp2]; exact hn
      have hc2 : cp < g2.num_players := by rw [hnp2]; exact hc
      have hca2 : isAlive g2 cp = true := by
        simp [isAlive, hhid]
      have hresp2 : ∀ u, u < g2.num_players → isAlive g2 u = true →
          u ≠ cp → ((crs : List (Nat × ChalResp)).lookup u).isSome = true := by
        intro u hu hal hune
        have hunum : u < g.num_players := by
          have h2 := hu
          rw [hnp2] at h2
          exact h2
        apply hresp u hunum _ hune
        rw [isAlive, hoth u hune, htr_ne u hune] at hal
        exact hal
      have hcas := revealNextChallengerAux_cascade g2 tp a ctx
        ⟨cp, crl, cpi, crs, some ⟨cp, .prove_challenge⟩, some false⟩ hca2 hresp2
        (g2.num_players + 1) (cycDist g2.num_players cp cp) cp hc2
        (cycDist_lt _ _ _ hn2)
        (by have := cycDist_lt g2.num_players cp cp hn2; omega)
        (cycDist_spec _ _ _ hn2 hc2)
      unfold challengePlayAction
      simp only
      rw [if_pos hhas]
      unfold challengeAfterReveal
      simp only
      have hcor : (decide ¬(crl = crl)) = false := by simp
      rw [hcor]
      simp only [Bool.false_eq_true, if_false]
      rw [hrep]
      unfold revealNextChallenger
      refine hcas.trans ?_
      unfold challengeQueue
      simp only
      cases hqq : challengersFrom g2
          ⟨cp, crl, cpi, crs, some ⟨cp, .prove_challenge⟩, some false⟩ cp
          (cycDist g2.num_players cp cp) with
      | nil => rfl
      | cons qh qt => rfl
  · intro O g tp a ctx ch q ph r hc hqlt hqne hca hresp hcc hrv hhas
    obtain ⟨cp, crl, cpi, crs, crv, cco⟩ := ch
    simp only at hrv hcc hhas hresp hc hca hqne
    subst hrv
    subst hcc
    have hqid : q < g.players.length := lt_length_of_hidden_mem hhas
    have hmem_t : (getPlayer (traceReveal g q r) q).hidden.contains r = true := by
      unfold traceReveal
      rw [getPlayer_updatePlayer_self _ _ _ hqid]
      exact hhas
    have htr : getPlayer (traceReveal g q r) q
        = { getPlayer g q with trace := (getPlayer g q).trace ++ [.revealEv r] } := by
      unfold traceReveal
      rw [getPlayer_updatePlayer_self _ _ _ hqid]
    have htr_ne : ∀ u, u ≠ q → getPlayer (traceReveal g q r) u = getPlayer g u := by
      intro u hu
      unfold traceReveal
      rw [getPlayer_updatePlayer_ne _ _ _ _ hu]
    obtain ⟨g3, hrev, hhid3, hrv3, hdk3, hnp3, hoth3⟩ :=
      revealRole_swap (traceReveal g q r) q r hmem_t
    have hnp3g : g3.num_players = g.num_players := hnp3
    refine ⟨g3, hrev, ?_, ?_, ?_⟩
    · rw [hhid3, htr]
    · rw [hrv3, htr]
    · have hn : 0 < g.num_players := by omega
      have hn3 : 0 < g3.num_players := by rw [hnp3g]; exact hn
      have hc3 : cp < g3.num_players := by rw [hnp3g]; exact hc
      have hq3 : q < g3.num_players := by rw [hnp3g]; exact hqlt
      have hcpq : cp ≠ q := fun he => hqne he.symm
      have hca3 : isAlive g3 cp = true := by
        unfold isAlive at hca ⊢
        rw [hoth3 cp hcpq, htr_ne cp hcpq]
        exact hca
      have hresp3 : ∀ u, u < g3.num_players → isAlive g3 u = true →
          u ≠ cp → ((crs : List (Nat × ChalResp)).lookup u).isSome = true := by
        intro u hu hal hune
        apply hresp u (by rw [← hnp3g]; exact hu) _ hune
        by_cases huq : u = q
        · subst huq
          unfold isAlive at hal ⊢
          rw [hhid3, htr] at hal
          simp only [decide_eq_true_eq] at hal ⊢
          have hle := List.length_erase_le r (getPlayer g u).hidden
          omega
        · unfold isAlive at hal ⊢
          rw [hoth3 u huq, htr_ne u huq] at hal
          exact hal
      have hcas := revealNextChallengerAux_cascade g3 tp a ctx
        ⟨cp, crl, cpi, crs, some ⟨q, ph⟩, some false⟩ hca3 hresp3
        (g3.num_players + 1) (cycDist g3.num_players q cp) q hq3
        (cycDist_lt _ _ _ hn3)
        (by have := cycDist_lt g3.num_players q cp hn3; omega)
        (cycDist_spec _ _ _ hn3 hc3)
      unfold challengePlayAction
      simp only
      rw [if_pos hhas]
      unfold challengeAfterReveal
      simp only [Bool.false_eq_true, if_false]
      rw [hrev]
      unfold revealNextChallenger
      refine hcas.trans ?_
      cases hqq : challengersFrom g3
          ⟨cp, crl, cpi, crs, some ⟨q, ph⟩, some false⟩ q
          (cycDist g3.num_players q cp) with
      | nil => rfl
      | cons qh qt => rfl

/-- A tax claim by player 0 under challenge: player 1 challenged, players
2 and 3 passed, and player 0 must now prove he holds the duke. -/
def chW : Challenge :=
  { challenged_player := 0, role := .duke, player_id := 1,
    responses := [(1, .challengeR), (2, .passR), (3, .passR)],
    reveal := some ⟨0, .prove_challenge⟩, challenge_correct := none }

/-- The same challenge after the successful proof: player 1 must reveal. -/
def chW2 : Challenge :=
  { chW with reveal := some ⟨1, .incorrect_challenge⟩, challenge_correct := some false }

/-- The surrounding tax action of player 0. -/
def aW : ActionSt := { name := .tax, player_id := 0 }

/-- Witness for C5: in the four-player start state, player 0 proves the
duke against player 1's challenge, and then player 1's forced reveal
cascades. -/
theorem challenge_cascade_witness :
    (∃ (newCard : Role) (g2 : Game),
      (idO.shuffle (gStart.deck ++ [chW.role])).getLast? = some newCard ∧
      g2.deck = (idO.shuffle (gStart.deck ++ [chW.role])).dropLast ∧
      (getPlayer g2 chW.challenged_player).hidden
        = ((getPlayer gStart chW.challenged_player).hidden.erase chW.role) ++ [newCard] ∧
      (getPlayer g2 chW.challenged_player).revealed
        = (getPlayer gStart chW.challenged_player).revealed ∧
      challengePlayAction idO gStart 0 aW .onAction chW (.revealA chW.role) =
        (match challengeQueue g2 { chW with challenge_correct := some false } with
         | q :: _ => .ok (setTurn g2 ⟨0, some (putChal aW .onAction (some { chW with
             challenge_correct := some false,
             reveal := some ⟨q, RevealPhase.incorrect_challenge⟩ }))⟩)
         | [] => parentResolveChal g2 0 aW .onAction true)) ∧
    (∃ g3 : Game,
      revealRole (traceReveal gStart 1 .captain) 1 .captain = .ok g3 ∧
      (getPlayer g3 1).hidden = (getPlayer gStart 1).hidden.erase .captain ∧
      (getPlayer g3 1).revealed = (getPlayer gStart 1).revealed ++ [.captain] ∧
      challengePlayAction idO gStart 0 aW .onAction chW2 (.revealA .captain) =
        (match challengersFrom g3 chW2 1
            (cycDist g3.num_players 1 chW2.challenged_player) with
         | q' :: _ => .ok (setTurn g3 ⟨0, some (putChal aW .onAction (some { chW2 with
             reveal := some ⟨q', RevealPhase.incorrect_challenge⟩ }))⟩)
         | [] => parentResolveChal g3 0 aW .onAction true)) :=
  ⟨challenge_cascade.1 idO gStart 0 aW .onAction chW idO_lengthPres (by decide)
      rfl rfl (by decide) (by decide),
   challenge_cascade.2 idO gStart 0 aW .onAction chW2 1 .incorrect_challenge
      .captain (by decide) (by decide) (by decide) (by decide) (by decide)
      rfl rfl (by decide)⟩

end Coup
